import Mathlib

/-!
Verification of the stackscript interpreter (a GolfScript-family stack
language written in Python) against its natural-language specification.

The Lean definitions below are a shallow embedding of the Python source:

* `src/stackscript/values.py`       — the value model (`Value`, `truthy`,
  indexing, `format`);
* `src/stackscript/operators/overloading.py` and
  `src/stackscript/ophandlers.py`  — the operator registry and the dispatch
  search `_search_registery`;
* `src/stackscript/operators/arithmetic.py` — arithmetic and numeric
  comparison handlers;
* `src/stackscript/operators/conditional.py` — `not` and generic equality;
* `src/stackscript/operators/general.py` — assignment (`operator_assign`,
  `_do_block_assignment`);
* the lexer/parser pipeline.  The file `stackscript/parser.py` is imported
  throughout the package but is absent from the source tree; those parts
  are modelled from the specification (and from the two earlier in-tree
  lexer generations `src/lexer.py` and `src/myscript/parser.py`, which
  agree on the token rules).  Such definitions are marked
  `Modelled from the spec:` in their doc comments.

Modelling conventions:

* Python `int` is `Int`; Python `float` (IEEE-754 double) is modelled as an
  exact rational `ℚ` — every double is a rational, and none of the claims
  under study depends on rounding of arithmetic results.
* Mutable `ArrayValue` objects are modelled by their list of contents;
  object identity is not tracked (no claim under study needs it, and the
  one place it would matter — Python `==` between two distinct arrays —
  is noted at `pyEq`).
* Python exceptions become `Except`; script-level errors
  (`ScriptError` subclasses) and host-level exceptions
  (`ZeroDivisionError`, `ValueError`) are distinct constructors of `Err`.
-/

namespace StackScript

/-- Operand classes used by dispatch (`values.py` `optype` tags: the
classes actually attached to values are `Bool`, `Number`, `String`,
`Array`, `Exec` and `Name`). -/
inductive Operand where
  | Bool | Number | String | Array | Exec | Name
deriving DecidableEq, Repr

/-- The operator tokens of the newer generation
(`stackscript/operators/defines.py`). `Collect` and `LShift` share the
token `<<`. -/
inductive Op where
  | Invert | Inspect | Eval
  | Dup | Drop | Break | Assign
  | Add | Sub | Mul | Div | Mod | Pow
  | BitOr | BitAnd | BitXor | LShift | RShift
  | LT | LE | GT | GE | NE | Equal
  | Index | Size | Collect
  | Not | And | Or | If | Do | While
deriving DecidableEq, Repr

/-- Parsed symbols (`stackscript/parser.py`, absent from the tree;
modelled from the spec §3 and the in-tree ancestor `myscript/parser.py`).
A symbol is an identifier, an operator, or a literal; compound literals
carry their nested symbols.  Positions are dropped (no claim mentions
them); the `text` metadata used by `BlockValue.format` is modelled by the
canonical rendering function `symRender` below.  Float literal payloads
are the exact decimal value of the literal text, as a rational. -/
inductive Sym where
  | ident   (name : String)
  | opSym   (op : Op)
  | litBool  (b : Bool)
  | litInt   (n : Int)
  | litFloat (q : ℚ)
  | litStr   (s : String)
  | litArray (syms : List Sym)
  | litTuple (syms : List Sym)
  | litBlock (syms : List Sym)

/-- The value model (`stackscript/values.py`).  `nameTarget` is
`NameValue` and `indexTarget` is `IndexValue`, the pseudo-values produced
only inside a block-assignment context (the context reference held by
`NameValue` is dropped; `IndexValue` holds the target array's contents and
the 1-based index). -/
inductive Value where
  | bool  (b : Bool)
  | int   (n : Int)
  | float (q : ℚ)
  | str   (s : String)
  | tuple (xs : List Value)
  | array (xs : List Value)
  | block (syms : List Sym)
  | nameTarget  (name : String)
  | indexTarget (arr : List Value) (idx : Int)

/-- `optype` of each value class (`values.py`). -/
def Value.optype : Value → Operand
  | .bool _ => .Bool
  | .int _ => .Number
  | .float _ => .Number
  | .str _ => .String
  | .tuple _ => .Array
  | .array _ => .Array
  | .block _ => .Exec
  | .nameTarget _ => .Name
  | .indexTarget _ _ => .Name

/-- Python `bool(v)` on script values.  `ScriptValue.__bool__`
(values.py line 38) returns `True` unconditionally and only `BoolValue`
overrides it, so every value other than `BoolValue` is truthy — including
`Int(0)`, `Float(0.0)` and empty sequences.  (`__len__` is never
consulted because `__bool__` is inherited.) -/
def truthy : Value → Bool
  | .bool b => b
  | _ => true

/-- Errors.  The first five are script-level (`ScriptError` subclasses in
`stackscript/exceptions.py`); `zeroDivision` and `valueError` are
host-level Python exceptions, which are *not* `ScriptError`s. -/
inductive Err where
  | operandError (msg : String) (operands : List Value)
  | indexError  (msg : String)
  | assignError (msg : String)
  | syntaxError (msg : String)
  | nameError   (msg : String)
  | zeroDivision
  | valueError

/-- Is this error a script-level operand error? -/
def Err.isOperandError : Err → Bool
  | .operandError _ _ => true
  | _ => false

/-- Is this error a script-level error at all (as opposed to a host
exception leaking out of the interpreter)? -/
def Err.isScriptError : Err → Bool
  | .zeroDivision => false
  | .valueError => false
  | _ => true

/-- Numbers: payload of `IntValue` or `FloatValue`. -/
inductive Num where
  | int   (n : Int)
  | float (q : ℚ)
deriving DecidableEq, Repr

def Num.toRat : Num → ℚ
  | .int n => (n : ℚ)
  | .float q => q

def Num.isInt : Num → Bool
  | .int _ => true
  | .float _ => false

def Num.toValue : Num → Value
  | .int n => .int n
  | .float q => .float q

/-- `coerce_number` (operators/coercion.py): the result class of a pair of
numbers is `FloatValue` if either operand is a `FloatValue`, else
`IntValue`.  Here represented by the boolean "result is IntValue". -/
def coerceIsInt (a b : Num) : Bool := a.isInt && b.isInt

/-- Python `int(q)`: truncation toward zero (used by `IntValue.__init__`
when fed a non-integral division result). -/
def ratTrunc (q : ℚ) : Int := Int.tdiv q.num (q.den : Int)

/-- Build the result of a numeric handler: `rtype(x)` where `rtype` is the
class chosen by `coerce_number` — `IntValue.__init__` applies `int(...)`
(truncation), `FloatValue.__init__` applies `float(...)`. -/
def numResult (isInt : Bool) (q : ℚ) : Num :=
  if isInt then .int (ratTrunc q) else .float q

/-- `operator_div` (operators/arithmetic.py lines 33-36):
`yield rtype(a.value / b.value)`.  There is no zero check: Python raises a
host-level `ZeroDivisionError` when `b.value == 0` (for ints and floats
alike).  Otherwise Python `/` is float division; modelled exactly on ℚ. -/
def operator_div (a b : Num) : Except Err Num :=
  if b.toRat = 0 then .error .zeroDivision
  else .ok (numResult (coerceIsInt a b) (a.toRat / b.toRat))

/-- `operator_mod` (operators/arithmetic.py lines 43-48): first rejects
any non-`IntValue` operand with a `ScriptOperandError`, then computes
`a.value % b.value` — which raises a host `ZeroDivisionError` when
`b.value == 0`.  Python `%` on ints is floor-modulo (`Int.fmod`). -/
def operator_mod (a b : Num) : Except Err Num :=
  match a, b with
  | .int x, .int y =>
      if y = 0 then .error .zeroDivision
      else .ok (.int (Int.fmod x y))
  | _, _ => .error (.operandError "unsupported operand types" [a.toValue, b.toValue])

/-- `_test_numeric_equality` (operators/arithmetic.py lines 62-66): if
`coerce_number` picks `IntValue` (both operands are ints) compare exactly,
else compare `abs(a.value - b.value) < 10**-9`. -/
def test_numeric_equality (a b : Num) : Bool :=
  if coerceIsInt a b then a.toRat == b.toRat
  else decide (|a.toRat - b.toRat| < (1 : ℚ) / 1000000000)

/-- Typed `Operator.Equal` handler on Number×Number
(operators/arithmetic.py `operator_equal`). -/
def operator_equal_num (a b : Num) : Value :=
  .bool (test_numeric_equality a b)

/-- Typed `Operator.NE` handler on Number×Number
(operators/arithmetic.py `operator_ne`). -/
def operator_ne_num (a b : Num) : Value :=
  .bool (! test_numeric_equality a b)

/-!  ## Sequence indexing (values.py)  -/

/-- `IntValue.as_index` (values.py lines 134-140): converts the script's
1-based index to a Python index — negative values pass through, positive
values are decremented, zero raises a host `ValueError`. -/
def as_index (n : Int) : Except Err Int :=
  if n < 0 then .ok n
  else if n > 0 then .ok (n - 1)
  else .error .valueError

/-- Python sequence read `l[i]`: negative `i` counts from the end
(`l[len + i]`), out of range is `none` (`IndexError`). -/
def pyGetElem {α : Type} (l : List α) (i : Int) : Option α :=
  let j : Int := if i < 0 then (l.length : Int) + i else i
  if 0 ≤ j then l.get? j.toNat else none

/-- Python list write `l[i] = v`: same index arithmetic as `pyGetElem`,
only existing positions are assignable. -/
def pySetElem {α : Type} (l : List α) (i : Int) (v : α) : Option (List α) :=
  let j : Int := if i < 0 then (l.length : Int) + i else i
  if 0 ≤ j ∧ j < (l.length : Int) then some (l.set j.toNat v) else none

/-- `__getitem__` shared by `StringValue`, `TupleValue` and `ArrayValue`
(values.py lines 190-196, 221-227 and 252-258 — the three bodies are
identical): index 0 is a `ScriptIndexError`, otherwise `as_index` then a
Python read; a host `IndexError` becomes `ScriptIndexError` "index out of
range". -/
def seqGetItem {α : Type} (l : List α) (idx : Int) : Except Err α :=
  if idx = 0 then .error (.indexError "0 is not a valid index")
  else
    match as_index idx with
    | .error e => .error e
    | .ok j =>
        match pyGetElem l j with
        | some v => .ok v
        | none => .error (.indexError "index out of range")

/-- `ArrayValue.__setitem__` (values.py lines 260-273): index 0 is a
`ScriptIndexError`; writing at converted index `len(self)` appends;
otherwise a Python write, out of range becoming `ScriptIndexError`. -/
def arraySetItem {α : Type} (l : List α) (idx : Int) (v : α) :
    Except Err (List α) :=
  if idx = 0 then .error (.indexError "0 is not a valid index")
  else
    match as_index idx with
    | .error e => .error e
    | .ok j =>
        if j = (l.length : Int) then .ok (l ++ [v])
        else
          match pySetElem l j v with
          | some l2 => .ok l2
          | none => .error (.indexError "index out of range")

/-- `operator_not` (operators/conditional.py lines 30-32):
`yield BoolValue.get_value(not bool(a))`. -/
def operator_not (a : Value) : Value := .bool (! truthy a)

/-!  ## Python equality on script values

`a == b` first calls `type(a).__eq__(b)`; none of the `__eq__`
implementations in values.py ever returns `NotImplemented`, so the result
is decided by the left operand's class.  `BoolValue.__eq__` compares its
payload with `bool(other)` (values.py lines 108-109); `DataValue.__eq__`
compares payloads when the other side is a `DataValue`, and falls back to
identity otherwise; `ArrayValue` and the pseudo-values use the default
identity equality.  Identity is not tracked in this model: the identity
fallback is rendered as `false` (distinct syntactic occurrences are
treated as distinct objects). -/

mutual

/-- Structural equality of symbols, as Python `==` on the (immutable)
symbol tuples held by blocks; float literal payloads compare by numeric
value. -/
def symBeq : Sym → Sym → Bool
  | .ident a, .ident b => a == b
  | .opSym a, .opSym b => a == b
  | .litBool a, .litBool b => a == b
  | .litInt a, .litInt b => a == b
  | .litFloat a, .litFloat b => a == b
  | .litStr a, .litStr b => a == b
  | .litArray a, .litArray b => symBeqList a b
  | .litTuple a, .litTuple b => symBeqList a b
  | .litBlock a, .litBlock b => symBeqList a b
  | _, _ => false

/-- Elementwise `symBeq`. -/
def symBeqList : List Sym → List Sym → Bool
  | [], [] => true
  | a :: as, b :: bs => symBeq a b && symBeqList as bs
  | _, _ => false

end

mutual

/-- Python `a == b` on script values (left-biased as described above). -/
def pyEq : Value → Value → Bool
  | .bool x, o => x == truthy o
  | .int x, .bool b => x == (if b then 1 else 0)
  | .int x, .int y => x == y
  | .int x, .float q => (x : ℚ) == q
  | .float p, .bool b => p == (if b then 1 else 0)
  | .float p, .int y => p == (y : ℚ)
  | .float p, .float q => p == q
  | .str s, .str t => s == t
  | .tuple xs, .tuple ys => pyEqList xs ys
  | .block xs, .block ys => symBeqList xs ys
  | _, _ => false

/-- Elementwise `pyEq` (Python tuple equality). -/
def pyEqList : List Value → List Value → Bool
  | [], [] => true
  | x :: xs, y :: ys => pyEq x y && pyEqList xs ys
  | _, _ => false

end

/-!  ## Operator registry and dispatch

From `stackscript/operators/overloading.py` (the same code, with
identical structure, appears in the older generation
`stackscript/ophandlers.py` lines 40-117).  A registry entry for one
operator maps a *signature* — either a tuple of operand classes
(bottom-to-top) or an arity integer — to an overload record; handler
functions are identified abstractly by a numeral `fid`. -/

/-- A dict key of `OP_REGISTRY[op]`: a typed signature (tuple key) or an
untyped arity (int key).  Tuple keys and int keys never collide. -/
inductive SigKey where
  | typed (sig : List Operand)
  | untyped (n : Nat)
deriving DecidableEq, Repr

/-- `OperatorOverload` (`OpHandler` in ophandlers.py): registered arity,
signature key, and handler (abstract id). -/
structure OpOverload where
  arity : Nat
  key : SigKey
  fid : Nat
deriving DecidableEq, Repr

/-- `OP_REGISTRY[op]` together with the registration order of its
entries. -/
structure OpRegistry where
  overloads : List OpOverload

/-- Dict lookup `registry.get(key)` (keys are unique in a dict;
registration raises on duplicates, see `_register_operator`). -/
def lookupKey (reg : OpRegistry) (k : SigKey) : Option OpOverload :=
  reg.overloads.find? (fun o => o.key == k)

/-- `OP_ARITY[op]`: maintained by `_register_operator` as the maximum of
the registered arities (0 for an empty registry, from `defaultdict(int)`). -/
def opArity (reg : OpRegistry) : Nat :=
  reg.overloads.foldl (fun m o => max m o.arity) 0

/-- Registry well-formedness: every entry was produced by
`ophandler_typed` (arity = signature length) or `ophandler_untyped`
(arity = the integer key), and keys are unique (duplicate registration
raises `ValueError`). -/
def OpRegistry.WF (reg : OpRegistry) : Prop :=
  (∀ o ∈ reg.overloads,
      match o.key with
      | .typed s => o.arity = s.length
      | .untyped n => o.arity = n) ∧
  (reg.overloads.map (fun o => o.key)).Nodup

/-- Result of `_search_registery`: a selected overload, or one of the two
`OperandError`s it can raise (`invalidOperands` carries the peeked
values, top-down, as `ScriptOperandError("invalid operands", *args)`
does). -/
inductive Dispatch where
  | found (o : OpOverload)
  | invalidOperands (peeked : List Value)
  | notEnoughOperands

/-- The peek loop of `_search_registery` (overloading.py lines 50-67):
`acc` is the list of already-peeked values (top-down), the first argument
the rest of the stack below them. -/
def searchLoop (reg : OpRegistry) (arity : Nat) :
    List Value → List Value → Dispatch
  | [], _ => .notEnoughOperands
  | top :: rest, acc =>
      let args := acc ++ [top]
      let signature := args.reverse.map Value.optype
      match lookupKey reg (.typed signature) with
      | some o => .found o
      | none =>
          match lookupKey reg (.untyped args.length) with
          | some o => .found o
          | none =>
              if arity ≤ args.length then .invalidOperands args
              else searchLoop reg arity rest args

/-- `_search_registery(op, ctx)` (overloading.py lines 41-67): the 0-ary
check `registry.get(()) or registry.get(0)` followed by the peek loop
over `ctx.iter_stack()` (top-down). -/
def search_registery (reg : OpRegistry) (stack : List Value) : Dispatch :=
  match lookupKey reg (.typed []) with
  | some o => .found o
  | none =>
      match lookupKey reg (.untyped 0) with
      | some o => .found o
      | none => searchLoop reg (opArity reg) stack []

/-- Modelled from the spec: the dispatch procedure as worded in §4.4 and
claim C1, written independently of `_search_registery` for comparison.
Step 2, at peek count `n`: if the stack has fewer than `n` values the
peeks underflow ("not enough operands"); otherwise the candidate
signature is formed from the `n` peeked values reversed to bottom-to-top
order, a typed handler is preferred, then an untyped handler of arity
`n`; failing both at the maximum declared arity is an operand error
reporting the peeked values. -/
def dispatchSpecLoop (reg : OpRegistry) (maxArity : Nat)
    (stack : List Value) (n : Nat) : Dispatch :=
  if stack.length < n then .notEnoughOperands
  else
    let peeked := stack.take n
    let signature := peeked.reverse.map Value.optype
    match lookupKey reg (.typed signature) with
    | some o => .found o
    | none =>
        match lookupKey reg (.untyped n) with
        | some o => .found o
        | none =>
            if maxArity ≤ n then .invalidOperands peeked
            else dispatchSpecLoop reg maxArity stack (n + 1)
termination_by maxArity + 1 - n

/-- Modelled from the spec: dispatch step 1 — "if a 0-ary handler is
registered it is used" (the typed empty signature before the untyped
0-arity entry, per the tie rule) — then the peek loop starting at one
peeked value. -/
def dispatchSpec (reg : OpRegistry) (stack : List Value) : Dispatch :=
  match lookupKey reg (.typed []) with
  | some o => .found o
  | none =>
      match lookupKey reg (.untyped 0) with
      | some o => .found o
      | none => dispatchSpecLoop reg (opArity reg) stack 1

/-!  ## Operator invocation (`apply_operator`)

`apply_operator` (overloading.py lines 31-39) pops exactly `arity`
values, calls the handler with them reversed to bottom-to-top order, and
pushes the yielded values in order.  Handler bodies are supplied through
an interpretation of the abstract `fid`s. -/

/-- `apply_operator` with handler bodies given by `interp`: dispatch,
pop `arity` values, call, push results. -/
def applyOp (reg : OpRegistry)
    (interp : Nat → List Value → Except Err (List Value))
    (stack : List Value) : Except Err (List Value) :=
  match search_registery reg stack with
  | .found o =>
      match interp o.fid (stack.take o.arity).reverse with
      | .ok outs => .ok (outs.reverse ++ stack.drop o.arity)
      | .error e => .error e
  | .invalidOperands args => .error (.operandError "invalid operands" args)
  | .notEnoughOperands => .error (.operandError "not enough operands" [])

def Value.asNum : Value → Option Num
  | .int n => some (.int n)
  | .float q => some (.float q)
  | _ => none

/-- The registry of `Operator.Equal`: the untyped 2-ary generic handler
(conditional.py lines 21-23 / ophandlers.py lines 452-454) and the typed
Number×Number handler (arithmetic.py lines 54-56 / ophandlers.py lines
460-462). -/
def equalRegistry : OpRegistry :=
  ⟨[⟨2, .untyped 2, 0⟩, ⟨2, .typed [.Number, .Number], 1⟩]⟩

/-- Handler bodies of `Operator.Equal`: fid 0 is
`yield BoolValue.get_value(a == b)`, fid 1 the numeric equality handler.
(The typed handler is only ever invoked with two numbers — dispatch
matched the `(Number, Number)` signature; other argument shapes are
unreachable.) -/
def equalInterp : Nat → List Value → Except Err (List Value)
  | 0, [a, b] => .ok [.bool (pyEq a b)]
  | 1, [a, b] =>
      match a.asNum, b.asNum with
      | some x, some y => .ok [operator_equal_num x y]
      | _, _ => .error (.operandError "unsupported operand types" [a, b])
  | _, args => .error (.operandError "unsupported operand types" args)

/-- Applying the `=` operator to a stack. -/
def applyEqual (stack : List Value) : Except Err (List Value) :=
  applyOp equalRegistry equalInterp stack

/-- The registry of `Operator.NE` (`~=`): untyped generic
(`yield BoolValue.get_value(a != b)`; Python derives `!=` from `__eq__`)
and typed Number×Number. -/
def neRegistry : OpRegistry :=
  ⟨[⟨2, .untyped 2, 0⟩, ⟨2, .typed [.Number, .Number], 1⟩]⟩

/-- Handler bodies of `Operator.NE`. -/
def neInterp : Nat → List Value → Except Err (List Value)
  | 0, [a, b] => .ok [.bool (! pyEq a b)]
  | 1, [a, b] =>
      match a.asNum, b.asNum with
      | some x, some y => .ok [operator_ne_num x y]
      | _, _ => .error (.operandError "unsupported operand types" [a, b])
  | _, args => .error (.operandError "unsupported operand types" args)

/-- Applying the `~=` operator to a stack. -/
def applyNE (stack : List Value) : Except Err (List Value) :=
  applyOp neRegistry neInterp stack

/-!  ## Assignment (`operators/general.py`)  -/

/-- The slice of an execution context (`ContextFrame`, runtime.py)
relevant to assignment: the stack (index 0 = top), the namespace layer
written by `namespace_bind_value` / `get_namespace()[name] = value`, and
the remaining symbols of the currently executing stream
(`get_symbol_iter`). -/
structure Ctx where
  stack : List Value
  locals : List (String × Value)
  symbols : List Sym

/-- A namespace write: the most recent binding shadows older ones. -/
def nsBind (ns : List (String × Value)) (name : String) (v : Value) :
    List (String × Value) :=
  (name, v) :: ns

/-- Intermediate result of `operator_assign` (general.py lines 107-129):
either the identifier-binding case completed, or the next symbol was a
literal that evaluated to a block and `_do_block_assignment` takes over
(a step that needs the full evaluator and is factored out, see
`do_block_assignment`). -/
inductive AssignStep where
  | bound (ctx : Ctx)
  | blockCase (block : List Sym) (ctx : Ctx)
  | err (e : Err)

/-- `operator_assign` (general.py lines 107-129): an empty stack is an
operand error; an exhausted symbol stream is a syntax error; an
`Identifier` next symbol binds the *peeked* (not popped) top of stack in
the current namespace; a literal evaluating to a block proceeds to block
assignment; anything else is `ScriptOperandError("invalid operands for
assignment")`.  (For a non-block compound literal the evaluation of the
literal itself is not modelled — its possible side effects are irrelevant
to the claims — only the resulting error is.) -/
def operator_assign (ctx : Ctx) : AssignStep :=
  if ctx.stack.length < 1 then .err (.operandError "not enough operands" [])
  else
    match ctx.symbols with
    | [] => .err (.syntaxError "invalid syntax")
    | next_sym :: rest =>
        match ctx.stack.head? with
        | none => .err (.operandError "not enough operands" [])
        | some value =>
            match next_sym with
            | .ident name =>
                .bound { ctx with
                         symbols := rest
                         locals := nsBind ctx.locals name value }
            | .litBlock syms =>
                .blockCase syms { ctx with symbols := rest }
            | .opSym _ => .err (.operandError "invalid operands for assignment" [])
            | _ => .err (.operandError "invalid operands for assignment" [])

/-- `isinstance(name, BindingTarget)`: the runtime-checkable protocol is
satisfied exactly by `NameValue` and `IndexValue`. -/
def isBindingTarget : Value → Bool
  | .nameTarget _ => true
  | .indexTarget _ _ => true
  | _ => false

/-- `isinstance(value, SequenceValue)` and `list(value)`: the protocol is
satisfied by `StringValue` (iterating single-character strings),
`TupleValue` and `ArrayValue`. -/
def unpackSeq : Value → Option (List Value)
  | .str s => some (s.data.map (fun c => .str (String.mk [c])))
  | .tuple xs => some xs
  | .array xs => some xs
  | _ => none

/-- `_do_block_assignment` (general.py lines 131-159) after its target
evaluation step: `names` is the result stack of the assignment
sub-context, bottom-up (`iter_stack_result`), and the function returns
the `(target, value)` binding pairs performed in order (each pair `(t,v)`
standing for `t.bind_value(ctx, v)`). -/
def do_block_assignment (names : List Value) (value : Value) :
    Except Err (List (Value × Value)) :=
  if ! names.all isBindingTarget then
    .error (.assignError "cannot assign to a non-identifier")
  else
    match names with
    | [] => .ok []
    | [n] => .ok [(n, value)]
    | _ =>
        match unpackSeq value with
        | none => .error (.assignError "value does not support multiple assignment")
        | some values =>
            if values.length ≠ names.length then
              .error (.assignError
                (if values.length < names.length then "not enough values to unpack"
                 else "too many values to unpack"))
            else .ok (names.zip values)

/-!  # Theorems  -/

/-!  Helper lemmas about index conversion and Python indexing.  -/

theorem as_index_pos (i : Int) (h : 0 < i) : as_index i = .ok (i - 1) := by
  unfold as_index
  rw [if_neg (by omega), if_pos h]

theorem as_index_neg (i : Int) (h : i < 0) : as_index i = .ok i := by
  unfold as_index
  rw [if_pos h]

theorem pyGetElem_nonneg {α : Type} (l : List α) (i : Int) (h : 0 ≤ i) :
    pyGetElem l i = l.get? i.toNat := by
  unfold pyGetElem
  dsimp only
  rw [if_neg (show ¬ i < 0 by omega), if_pos h]

theorem pyGetElem_neg {α : Type} (l : List α) (i : Int) (h : i < 0) :
    pyGetElem l i = if 0 ≤ (l.length : Int) + i
      then l.get? ((l.length : Int) + i).toNat else none := by
  unfold pyGetElem
  dsimp only
  rw [if_pos h]

theorem pySetElem_nonneg {α : Type} (l : List α) (i : Int) (v : α)
    (h : 0 ≤ i) : pySetElem l i v =
      if 0 ≤ i ∧ i < (l.length : Int) then some (l.set i.toNat v) else none := by
  unfold pySetElem
  dsimp only
  rw [if_neg (show ¬ i < 0 by omega)]

/-- Claim C3: sequence indexing is 1-based for positive indices (index 1
reads the first element), negative indices count from the end (−1 reads
the last), index 0 and out-of-bounds indices raise an Index error; array
writes at `len+1` append, while writes at 0 or beyond `len+1` raise an
Index error. -/
theorem claim_C3 :
    (∀ {α : Type} (l : List α) (h : l ≠ []), seqGetItem l 1 = .ok (l.head h))
  ∧ (∀ {α : Type} (l : List α) (h : l ≠ []), seqGetItem l (-1) = .ok (l.getLast h))
  ∧ (∀ {α : Type} (l : List α), seqGetItem l 0
        = .error (.indexError "0 is not a valid index"))
  ∧ (∀ {α : Type} (l : List α) (i : Int),
        ((l.length : Int) < i ∨ i < -(l.length : Int)) →
        seqGetItem l i = .error (.indexError "index out of range"))
  ∧ (∀ (l : List Value) (v : Value),
        arraySetItem l ((l.length : Int) + 1) v = .ok (l ++ [v]))
  ∧ (∀ (l : List Value) (v : Value),
        arraySetItem l 0 v = .error (.indexError "0 is not a valid index"))
  ∧ (∀ (l : List Value) (v : Value) (i : Int), (l.length : Int) + 1 < i →
        arraySetItem l i v = .error (.indexError "index out of range")) := by
  refine ⟨?_, ?_, ?_, ?_, ?_, ?_, ?_⟩
  · intro α l h
    unfold seqGetItem
    rw [if_neg (show (1 : Int) ≠ 0 by omega), as_index_pos 1 (by omega)]
    dsimp only
    rw [show (1 : Int) - 1 = 0 by omega, pyGetElem_nonneg _ _ le_rfl]
    cases l with
    | nil => exact absurd rfl h
    | cons x xs => rfl
  · intro α l h
    have hlen : 1 ≤ l.length := List.length_pos.mpr h
    unfold seqGetItem
    rw [if_neg (show (-1 : Int) ≠ 0 by omega), as_index_neg (-1) (by omega)]
    dsimp only
    rw [pyGetElem_neg _ _ (by omega), if_pos (show (0:Int) ≤ (l.length : Int) + -1 by omega)]
    rw [List.get?_eq_get (by omega)]
    rw [List.getLast_eq_get]
    exact congrArg (fun f => Except.ok (l.get f))
      (Fin.ext (show ((l.length : Int) + -1).toNat = l.length - 1 by omega))
  · intro α l
    unfold seqGetItem
    rw [if_pos rfl]
  · intro α l i hi
    have hne : i ≠ 0 := by omega
    unfold seqGetItem
    rw [if_neg hne]
    rcases hi with hpos | hneg
    · rw [as_index_pos i (by omega)]
      dsimp only
      rw [pyGetElem_nonneg _ _ (by omega)]
      rw [List.get?_eq_none.mpr (by omega)]
    · rw [as_index_neg i (by omega)]
      dsimp only
      rw [pyGetElem_neg _ _ (by omega),
        if_neg (show ¬ (0:Int) ≤ (l.length : Int) + i by omega)]
  · intro l v
    unfold arraySetItem
    rw [if_neg (show ((l.length : Int) + 1) ≠ 0 by omega),
      as_index_pos _ (by omega)]
    dsimp only
    rw [if_pos (show (l.length : Int) + 1 - 1 = (l.length : Int) by omega)]
  · intro l v
    unfold arraySetItem
    rw [if_pos rfl]
  · intro l v i hi
    unfold arraySetItem
    rw [if_neg (show i ≠ 0 by omega), as_index_pos i (by omega)]
    dsimp only
    rw [if_neg (show ¬ i - 1 = (l.length : Int) by omega)]
    rw [pySetElem_nonneg _ _ _ (by omega),
      if_neg (show ¬ ((0:Int) ≤ i - 1 ∧ i - 1 < (l.length : Int)) by
        push_neg
        intro h
        omega)]

/-- Witness for C3 at concrete inputs. -/
theorem claim_C3_witness :
    seqGetItem [Value.int 10, Value.int 20, Value.int 30] 1 = .ok (Value.int 10)
  ∧ seqGetItem [Value.int 10, Value.int 20, Value.int 30] (-1) = .ok (Value.int 30)
  ∧ seqGetItem [Value.int 10] 2 = .error (.indexError "index out of range")
  ∧ arraySetItem [Value.int 1] 2 (Value.int 9) = .ok [Value.int 1, Value.int 9]
  ∧ arraySetItem [Value.int 1] 3 (Value.int 9)
      = .error (.indexError "index out of range") := by
  obtain ⟨h1, h2, _, h4, h5, _, h7⟩ := claim_C3
  refine ⟨h1 _ (by simp), ?_, h4 _ 2 (by norm_num), ?_, h7 _ _ 3 (by norm_num)⟩
  · simpa using h2 [Value.int 10, Value.int 20, Value.int 30] (by simp)
  · simpa using h5 [Value.int 1] (Value.int 9)

/-- Claim C4 (counterexample): the claim asserts that `not` applied to
`Int(0)` pushes true; in the code `ScriptValue.__bool__` returns `True`
for every non-`BoolValue`, so `Int(0)` is truthy and `0 not` pushes
`false`. -/
theorem claim_C4_counterexample :
    truthy (Value.int 0) = true
  ∧ operator_not (Value.int 0) = Value.bool false
  ∧ Value.bool false ≠ Value.bool true := by
  refine ⟨rfl, rfl, ?_⟩
  intro h
  simp at h

/-- Claim C4 (amended): `Bool(false)` is the only falsy value — `Int(0)`,
`Float(0.0)` and empty sequences are all truthy — and `not` pushes the
negated truthiness, i.e. pushes true exactly on `Bool(false)`. -/
theorem claim_C4_amended :
    (∀ v : Value, operator_not v = .bool true ↔ v = .bool false)
  ∧ (∀ v : Value, operator_not v = .bool (! truthy v))
  ∧ truthy (Value.int 0) = true
  ∧ truthy (Value.float 0) = true
  ∧ truthy (Value.str "") = true
  ∧ truthy (Value.array []) = true
  ∧ truthy (Value.tuple []) = true
  ∧ truthy (Value.bool false) = false
  ∧ truthy (Value.bool true) = true := by
  refine ⟨?_, fun v => rfl, rfl, rfl, rfl, rfl, rfl, rfl, rfl⟩
  intro v
  cases v with
  | bool b => cases b <;> simp [operator_not, truthy]
  | int n => simp [operator_not, truthy]
  | float q => simp [operator_not, truthy]
  | str s => simp [operator_not, truthy]
  | tuple xs => simp [operator_not, truthy]
  | array xs => simp [operator_not, truthy]
  | block syms => simp [operator_not, truthy]
  | nameTarget n => simp [operator_not, truthy]
  | indexTarget a i => simp [operator_not, truthy]

/-- Claim C5 (counterexample): the claim asserts that `/` and `%` with a
zero right operand raise a script-level operand error and that all other
Number pairs succeed.  In the code `operator_div` divides with no zero
check, so Python raises a host `ZeroDivisionError` (not a `ScriptError`);
and `operator_mod` on a Float pair raises an operand error even though
the right operand is nonzero. -/
theorem claim_C5_counterexample :
    operator_div (Num.int 1) (Num.int 0) = .error .zeroDivision
  ∧ Err.isScriptError .zeroDivision = false
  ∧ Err.isOperandError .zeroDivision = false
  ∧ operator_mod (Num.float 1) (Num.float 1)
      = .error (.operandError "unsupported operand types"
          [Value.float 1, Value.float 1]) := by
  refine ⟨?_, rfl, rfl, rfl⟩
  simp [operator_div, Num.toRat]

/-- Claim C5 (amended): `/` with zero right operand raises a host-level
`ZeroDivisionError` (not a script operand error), as does `%` on an Int
pair with zero right operand; `%` with any Float operand raises an
operand error regardless of the right operand; all other Number pairs
succeed. -/
theorem claim_C5_amended :
    (∀ a b : Num, b.toRat = 0 → operator_div a b = .error .zeroDivision)
  ∧ (∀ a b : Num, b.toRat ≠ 0 →
      operator_div a b = .ok (numResult (coerceIsInt a b) (a.toRat / b.toRat)))
  ∧ (∀ x : Int, operator_mod (.int x) (.int 0) = .error .zeroDivision)
  ∧ (∀ x y : Int, y ≠ 0 → operator_mod (.int x) (.int y) = .ok (.int (Int.fmod x y)))
  ∧ (∀ a b : Num, (a.isInt = false ∨ b.isInt = false) →
      operator_mod a b = .error (.operandError "unsupported operand types"
        [a.toValue, b.toValue]))
  ∧ Err.isScriptError .zeroDivision = false := by
  refine ⟨?_, ?_, ?_, ?_, ?_, rfl⟩
  · intro a b hb
    simp [operator_div, hb]
  · intro a b hb
    simp [operator_div, hb]
  · intro x
    simp [operator_mod]
  · intro x y hy
    simp [operator_mod, hy]
  · intro a b hab
    cases a <;> cases b <;> simp_all [operator_mod, Num.isInt]

/-- Witness for the amended C5 at concrete inputs. -/
theorem claim_C5_amended_witness :
    operator_div (Num.int 6) (Num.int 0) = .error .zeroDivision
  ∧ operator_div (Num.int 7) (Num.int 2) = .ok (.int 3)
  ∧ operator_mod (Num.int 7) (Num.int 3) = .ok (.int 1)
  ∧ operator_mod (Num.float (3/2)) (Num.int 1)
      = .error (.operandError "unsupported operand types"
          [Value.float (3/2), Value.int 1]) := by
  obtain ⟨h1, h2, _, h4, h5, _⟩ := claim_C5_amended
  refine ⟨h1 _ _ (by norm_num [Num.toRat]), ?_, ?_, ?_⟩
  · rw [h2 (Num.int 7) (Num.int 2) (by norm_num [Num.toRat])]
    norm_num [numResult, coerceIsInt, Num.isInt, Num.toRat, ratTrunc]
    rfl
  · rw [h4 7 3 (by norm_num), show Int.fmod 7 3 = 1 by decide]
  · exact h5 _ _ (Or.inl rfl)

/-- Claim C8: `=` on two Numbers compares exactly when both are Ints and
with absolute tolerance 10⁻⁹ when at least one is a Float; `~=` is the
negation; dispatched through the typed Number×Number handlers. -/
theorem claim_C8 :
    (∀ (a b : Num) (rest : List Value),
        applyEqual (b.toValue :: a.toValue :: rest)
          = .ok (.bool (test_numeric_equality a b) :: rest)
      ∧ applyNE (b.toValue :: a.toValue :: rest)
          = .ok (.bool (! test_numeric_equality a b) :: rest))
  ∧ (∀ x y : Int, test_numeric_equality (.int x) (.int y) = decide (x = y))
  ∧ (∀ a b : Num, (a.isInt = false ∨ b.isInt = false) →
      (test_numeric_equality a b = true ↔
        |a.toRat - b.toRat| < (1 : ℚ) / 1000000000)) := by
  refine ⟨?_, ?_, ?_⟩
  · intro a b rest
    cases a <;> cases b <;> exact ⟨rfl, rfl⟩
  · intro x y
    simp only [test_numeric_equality, coerceIsInt, Num.isInt, Bool.and_self,
      if_true, Num.toRat]
    rw [Bool.eq_iff_iff]
    simp [beq_iff_eq, Int.cast_inj]
  · intro a b hab
    have h : coerceIsInt a b = false := by
      cases a <;> cases b <;> simp_all [coerceIsInt, Num.isInt]
    simp [test_numeric_equality, h]

/-- Witness for C8 at concrete inputs. -/
theorem claim_C8_witness :
    applyEqual [Value.float (1/2), Value.int 3] = .ok [Value.bool false]
  ∧ applyNE [Value.int 5, Value.int 5] = .ok [Value.bool false]
  ∧ test_numeric_equality (.int 4) (.int 4) = true
  ∧ (test_numeric_equality (.float (1/2)) (.int 0) = true ↔
      |((Num.float (1/2)).toRat - (Num.int 0).toRat)| < (1 : ℚ) / 1000000000) := by
  obtain ⟨h1, h2, h3⟩ := claim_C8
  refine ⟨?_, ?_, ?_, h3 (.float (1/2)) (.int 0) (Or.inl rfl)⟩
  · have h := (h1 (.int 3) (.float (1/2)) []).1
    have hv : test_numeric_equality (.int 3) (.float (1/2)) = false := by
      simp only [test_numeric_equality, coerceIsInt, Num.isInt, Bool.and_false,
        Num.toRat, Bool.false_and]
      rw [if_neg (by simp), decide_eq_false_iff_not, abs_sub_lt_iff]
      push_cast
      norm_num
    rw [hv] at h
    exact h
  · have h := (h1 (.int 5) (.int 5) []).2
    have hv : test_numeric_equality (.int 5) (.int 5) = true := by decide
    rw [hv] at h
    exact h
  · rw [h2 4 4]
    simp

/-- Claim C10: applying `=` to a stack whose second value is a Bool `b`
(bottom operand) and whose top is any value `v` selects the untyped
generic handler, and `BoolValue.__eq__` compares `b` with the truthiness
of `v` — so the result is `b == bool(v)` whatever the type of `v`. -/
theorem claim_C10 :
    ∀ (b : Bool) (v : Value) (rest : List Value),
      applyEqual (v :: .bool b :: rest) = .ok (.bool (b == truthy v) :: rest) := by
  intro b v rest
  cases v <;> rfl

/-- Claim C6: when the next symbol after `:` is an identifier and the
stack is non-empty, `operator_assign` binds the current top of stack to
that name in the current namespace, consumes the identifier symbol, and
leaves the stack unchanged (the value is peeked, not popped, and the
0-arity handler pushes nothing). -/
theorem claim_C6 :
    ∀ (ctx : Ctx) (name : String) (rest : List Sym),
      ctx.symbols = .ident name :: rest → ∀ (h : ctx.stack ≠ []),
      operator_assign ctx = .bound
        { stack := ctx.stack
          locals := nsBind ctx.locals name (ctx.stack.head h)
          symbols := rest } := by
  intro ctx name rest hsym h
  obtain ⟨stack, locals, symbols⟩ := ctx
  cases stack with
  | nil => exact absurd rfl h
  | cons top below =>
      unfold operator_assign
      rw [if_neg (by simp)]
      rw [show symbols = Sym.ident name :: rest from hsym]
      rfl

/-- Witness for C6 at a concrete context. -/
theorem claim_C6_witness :
    operator_assign
      { stack := [Value.int 42, Value.str "x"]
        locals := []
        symbols := [.ident "n", .opSym .Drop] }
    = .bound
      { stack := [Value.int 42, Value.str "x"]
        locals := [("n", Value.int 42)]
        symbols := [.opSym .Drop] } := by
  have h := claim_C6
    { stack := [Value.int 42, Value.str "x"]
      locals := []
      symbols := [.ident "n", .opSym .Drop] }
    "n" [.opSym .Drop] rfl (fun hh => List.noConfusion hh)
  exact h

/-- Claim C7: in a block assignment, if the evaluated targets are not all
name/index targets the result is an assignment error; with two or more
targets the assigned value must be a sequence of exactly matching length
(else an assignment error); matching counts bind pairwise and a single
target is bound to the whole value. -/
theorem claim_C7 :
    (∀ (names : List Value) (value : Value),
        (¬ ∀ n ∈ names, isBindingTarget n = true) →
        ∃ msg, do_block_assignment names value = .error (.assignError msg))
  ∧ (∀ (n : Value) (value : Value), isBindingTarget n = true →
        do_block_assignment [n] value = .ok [(n, value)])
  ∧ (∀ (names : List Value) (value : Value),
        2 ≤ names.length → (∀ n ∈ names, isBindingTarget n = true) →
        unpackSeq value = none →
        ∃ msg, do_block_assignment names value = .error (.assignError msg))
  ∧ (∀ (names : List Value) (value : Value) (values : List Value),
        2 ≤ names.length → (∀ n ∈ names, isBindingTarget n = true) →
        unpackSeq value = some values → values.length ≠ names.length →
        ∃ msg, do_block_assignment names value = .error (.assignError msg))
  ∧ (∀ (names : List Value) (value : Value) (values : List Value),
        2 ≤ names.length → (∀ n ∈ names, isBindingTarget n = true) →
        unpackSeq value = some values → values.length = names.length →
        do_block_assignment names value = .ok (names.zip values)) := by
  refine ⟨?_, ?_, ?_, ?_, ?_⟩
  · intro names value hn
    refine ⟨"cannot assign to a non-identifier", ?_⟩
    unfold do_block_assignment
    rw [if_pos (by
      simp only [Bool.not_eq_true', List.all_eq_false]
      push_neg at hn
      obtain ⟨n, hmem, hval⟩ := hn
      exact ⟨n, hmem, by simp [hval]⟩)]
  · intro n value hn
    unfold do_block_assignment
    rw [if_neg (by simp [hn])]
  · intro names value htwo hall hseq
    refine ⟨"value does not support multiple assignment", ?_⟩
    unfold do_block_assignment
    rw [if_neg (by simp [List.all_eq_true.mpr hall])]
    match names, htwo with
    | a :: b :: rest, _ => simp [hseq]
  · intro names value values htwo hall hseq hlen
    unfold do_block_assignment
    rw [if_neg (by simp [List.all_eq_true.mpr hall])]
    match names, htwo with
    | a :: b :: rest, _ =>
        refine ⟨if values.length < (a :: b :: rest).length
          then "not enough values to unpack"
          else "too many values to unpack", ?_⟩
        simp only [hseq]
        rw [if_pos (by simpa using hlen)]
  · intro names value values htwo hall hseq hlen
    unfold do_block_assignment
    rw [if_neg (by simp [List.all_eq_true.mpr hall])]
    match names, htwo with
    | a :: b :: rest, _ =>
        simp only [hseq]
        rw [if_neg (by simpa using hlen)]

/-- Witness for C7 at concrete inputs. -/
theorem claim_C7_witness :
    do_block_assignment [Value.int 1] (Value.int 2)
      = .error (.assignError "cannot assign to a non-identifier")
  ∧ do_block_assignment [Value.nameTarget "x"] (Value.int 2)
      = .ok [(Value.nameTarget "x", Value.int 2)]
  ∧ do_block_assignment [Value.nameTarget "x", Value.nameTarget "y"] (Value.int 2)
      = .error (.assignError "value does not support multiple assignment")
  ∧ do_block_assignment [Value.nameTarget "x", Value.nameTarget "y"]
        (Value.tuple [Value.int 1])
      = .error (.assignError "not enough values to unpack")
  ∧ do_block_assignment [Value.nameTarget "x", Value.nameTarget "y"]
        (Value.tuple [Value.int 1, Value.int 2])
      = .ok [(Value.nameTarget "x", Value.int 1),
             (Value.nameTarget "y", Value.int 2)] := by
  obtain ⟨h1, h2, h3, h4, h5⟩ := claim_C7
  refine ⟨?_, h2 _ _ rfl, ?_, ?_, ?_⟩
  · obtain ⟨msg, hmsg⟩ := h1 [Value.int 1] (Value.int 2)
      (by intro hall; simpa [isBindingTarget] using hall (Value.int 1) (by simp))
    rw [hmsg]
    revert hmsg
    unfold do_block_assignment
    rw [if_pos (by simp [isBindingTarget])]
    intro hmsg
    rw [show msg = "cannot assign to a non-identifier" by
      have := hmsg
      simp only [Except.error.injEq, Err.assignError.injEq] at this
      exact this.symm]
  · obtain ⟨msg, hmsg⟩ := h3 [Value.nameTarget "x", Value.nameTarget "y"]
      (Value.int 2) (by simp) (by intro n hn; fin_cases hn <;> rfl) rfl
    rw [hmsg]
    revert hmsg
    unfold do_block_assignment
    rw [if_neg (by simp [isBindingTarget])]
    intro hmsg
    rw [show msg = "value does not support multiple assignment" by
      have := hmsg
      simp only [unpackSeq, Except.error.injEq, Err.assignError.injEq] at this
      exact this.symm]
  · obtain ⟨msg, hmsg⟩ := h4 [Value.nameTarget "x", Value.nameTarget "y"]
      (Value.tuple [Value.int 1]) [Value.int 1] (by simp)
      (by intro n hn; fin_cases hn <;> rfl) rfl (by simp)
    rw [hmsg]
    revert hmsg
    unfold do_block_assignment
    rw [if_neg (by simp [isBindingTarget])]
    intro hmsg
    rw [show msg = "not enough values to unpack" by
      have := hmsg
      simp only [unpackSeq, Except.error.injEq, Err.assignError.injEq] at this
      simpa using this.symm]
  · exact h5 _ _ [Value.int 1, Value.int 2] (by simp)
      (by intro n hn; fin_cases hn <;> rfl) rfl rfl

/-!  Helper lemmas about dispatch.  -/

/-- The peek loop of the implementation, started with `pre` already
peeked, agrees with the spec-worded loop at peek count `pre.length + 1`
over the full stack `pre ++ suf`. -/
theorem searchLoop_eq_specLoop (reg : OpRegistry) (arity : Nat) :
    ∀ (suf pre : List Value),
      searchLoop reg arity suf pre
        = dispatchSpecLoop reg arity (pre ++ suf) (pre.length + 1) := by
  intro suf
  induction suf with
  | nil =>
      intro pre
      rw [searchLoop, dispatchSpecLoop, List.append_nil]
      rw [if_pos (Nat.lt_succ_self pre.length)]
  | cons top rest ih =>
      intro pre
      rw [searchLoop, dispatchSpecLoop]
      rw [if_neg (show ¬ (pre ++ top :: rest).length < pre.length + 1 by
        simp only [List.length_append, List.length_cons]
        omega)]
      have hsplit : pre ++ top :: rest = (pre ++ [top]) ++ rest := by simp
      have htake : (pre ++ top :: rest).take (pre.length + 1) = pre ++ [top] := by
        rw [hsplit]
        exact List.take_left' (by simp)
      rw [htake]
      dsimp only
      have hlen : (pre ++ [top]).length = pre.length + 1 := by simp
      rw [hlen]
      cases lookupKey reg (.typed ((pre ++ [top]).reverse.map Value.optype)) with
      | some o => rfl
      | none =>
          cases lookupKey reg (.untyped (pre.length + 1)) with
          | some o => rfl
          | none =>
              by_cases harity : arity ≤ pre.length + 1
              · rw [if_pos harity, if_pos harity]
              · rw [if_neg harity, if_neg harity]
                rw [ih (pre ++ [top])]
                rw [hsplit]
                simp

/-- Claim C1: operator dispatch selects handlers exactly as the spec
describes — a registered 0-ary handler first, then values peeked one at a
time top-down, after each peek the typed handler for the accumulated
bottom-to-top signature taking precedence over the untyped handler of the
same arity.  The implementation's `_search_registery` equals the
spec-worded procedure on every registry and stack. -/
theorem claim_C1 :
    ∀ (reg : OpRegistry) (stack : List Value),
      search_registery reg stack = dispatchSpec reg stack := by
  intro reg stack
  unfold search_registery dispatchSpec
  cases lookupKey reg (.typed []) with
  | some o => rfl
  | none =>
      cases lookupKey reg (.untyped 0) with
      | some o => rfl
      | none => exact searchLoop_eq_specLoop reg (opArity reg) stack []

/-- Any initial accumulator value bounds the fold computing `OP_ARITY`. -/
theorem foldl_max_le_init (l : List OpOverload) (a : Nat) :
    a ≤ l.foldl (fun m o => max m o.arity) a := by
  induction l generalizing a with
  | nil => exact le_rfl
  | cons hd tl ih => exact le_trans (le_max_left _ _) (ih (max a hd.arity))

/-- A member's arity is bounded by the `OP_ARITY` fold from any
accumulator. -/
theorem mem_le_foldl_max (l : List OpOverload) :
    ∀ (a : Nat) (o : OpOverload), o ∈ l →
      o.arity ≤ l.foldl (fun m x => max m x.arity) a := by
  induction l with
  | nil => intro a o h; cases h
  | cons hd tl ih =>
      intro a o h
      rw [List.foldl_cons]
      cases h with
      | head => exact le_trans (le_max_right a _) (foldl_max_le_init tl _)
      | tail _ hmem => exact ih (max a hd.arity) o hmem

/-- Every registered overload's arity is bounded by `OP_ARITY`. -/
theorem mem_arity_le_opArity (reg : OpRegistry) :
    ∀ o ∈ reg.overloads, o.arity ≤ opArity reg := by
  intro o ho
  unfold opArity
  exact mem_le_foldl_max reg.overloads 0 o ho



/-- A registered key is always found by lookup. -/
theorem lookup_mem_ne_none (reg : OpRegistry) (o : OpOverload)
    (h : o ∈ reg.overloads) : lookupKey reg o.key ≠ none := by
  unfold lookupKey
  intro hnone
  rw [List.find?_eq_none] at hnone
  exact absurd (by simp) (hnone o h)

/-- Trichotomy of the peek loop: with fewer values peeked than the
maximum arity, the loop either finds a handler, or errors with the top
`arity` values once they have all been peeked, or underflows. -/
theorem searchLoop_cases (reg : OpRegistry) (arity : Nat) :
    ∀ (suf pre : List Value), pre.length < arity →
      (∃ o, searchLoop reg arity suf pre = .found o)
      ∨ (arity ≤ (pre ++ suf).length ∧
          searchLoop reg arity suf pre
            = .invalidOperands ((pre ++ suf).take arity))
      ∨ ((pre ++ suf).length < arity ∧
          searchLoop reg arity suf pre = .notEnoughOperands) := by
  intro suf
  induction suf with
  | nil =>
      intro pre hpre
      refine Or.inr (Or.inr ⟨by simpa using hpre, ?_⟩)
      rw [searchLoop]
  | cons top rest ih =>
      intro pre hpre
      rw [searchLoop]
      cases lookupKey reg (.typed ((pre ++ [top]).reverse.map Value.optype)) with
      | some o => exact Or.inl ⟨o, rfl⟩
      | none =>
          cases lookupKey reg (.untyped (pre ++ [top]).length) with
          | some o => exact Or.inl ⟨o, rfl⟩
          | none =>
              by_cases harity : arity ≤ (pre ++ [top]).length
              · rw [if_pos harity]
                refine Or.inr (Or.inl ⟨by simp at harity ⊢; omega, ?_⟩)
                have heq : arity = (pre ++ [top]).length := by
                  simp at harity ⊢
                  omega
                have htake : (pre ++ top :: rest).take arity = pre ++ [top] := by
                  rw [show pre ++ top :: rest = (pre ++ [top]) ++ rest by simp]
                  rw [heq]
                  exact List.take_left _ _
                rw [htake]
              · rw [if_neg harity]
                have := ih (pre ++ [top]) (by simpa using harity)
                rw [show (pre ++ [top]) ++ rest = pre ++ top :: rest by simp] at this
                exact this

/-- Claim C2: for a well-formed non-empty registry with no 0-ary handler,
dispatch either selects a handler, or — when no handler matches after
peeking as many values as the operator's maximum declared arity — raises
an operand error reporting exactly those peeked values, or — when the
stack holds fewer values than the maximum arity — raises the operand
error "not enough operands"; these are the only error cases. -/
theorem claim_C2 :
    ∀ (reg : OpRegistry) (stack : List Value),
      reg.WF → reg.overloads ≠ [] →
      lookupKey reg (.typed []) = none →
      lookupKey reg (.untyped 0) = none →
      (∃ o, search_registery reg stack = .found o)
      ∨ (opArity reg ≤ stack.length ∧
          search_registery reg stack
            = .invalidOperands (stack.take (opArity reg)))
      ∨ (stack.length < opArity reg ∧
          search_registery reg stack = .notEnoughOperands) := by
  intro reg stack hwf hne h1 h2
  have harity : 1 ≤ opArity reg := by
    obtain ⟨o, ho⟩ : ∃ o, o ∈ reg.overloads :=
      List.exists_mem_of_ne_nil reg.overloads hne
    have hao : o.arity ≤ opArity reg := mem_arity_le_opArity reg o ho
    rcases Nat.eq_zero_or_pos o.arity with hz | hp
    · exfalso
      have hkey := hwf.1 o ho
      cases hk : o.key with
      | typed s =>
          rw [hk] at hkey
          have hs : s = [] := by
            rw [hz] at hkey
            exact (List.eq_nil_of_length_eq_zero hkey.symm)
          apply lookup_mem_ne_none reg o ho
          rw [hk, hs, h1]
      | untyped n =>
          rw [hk] at hkey
          apply lookup_mem_ne_none reg o ho
          rw [hk, show n = 0 by omega, h2]
    · omega
  unfold search_registery
  rw [h1, h2]
  have := searchLoop_cases reg (opArity reg) stack [] (by simpa using harity)
  simpa using this

/-- Witness for C2 at a concrete registry and stack (the typed
Number×Number registry applied to a two-string stack hits the
invalid-operands case with exactly the two peeked strings). -/
theorem claim_C2_witness :
    opArity ⟨[⟨2, .typed [.Number, .Number], 7⟩]⟩ ≤ 2 ∧
    search_registery ⟨[⟨2, .typed [.Number, .Number], 7⟩]⟩
        [Value.str "a", Value.str "b"]
      = .invalidOperands [Value.str "a", Value.str "b"] := by
  have h := claim_C2 ⟨[⟨2, .typed [.Number, .Number], 7⟩]⟩
    [Value.str "a", Value.str "b"]
    (by constructor
        · intro o ho
          fin_cases ho
          rfl
        · simp)
    (by simp) rfl rfl
  rcases h with ⟨o, ho⟩ | ⟨hle, heq⟩ | ⟨hlt, heq⟩
  · rw [show search_registery ⟨[⟨2, .typed [.Number, .Number], 7⟩]⟩
        [Value.str "a", Value.str "b"]
      = .invalidOperands [Value.str "a", Value.str "b"] from rfl] at ho
    cases ho
  · exact ⟨hle, by simpa using heq⟩
  · rw [show search_registery ⟨[⟨2, .typed [.Number, .Number], 7⟩]⟩
        [Value.str "a", Value.str "b"]
      = .invalidOperands [Value.str "a", Value.str "b"] from rfl] at heq
    cases heq

/-!  # Lexer and parser (for claim C9)

Modelled from the spec: `stackscript/parser.py` is imported throughout the
package but absent from the source tree.  The lexer below follows spec
§4.1 and the two in-tree ancestor lexers (`src/lexer.py`,
`src/myscript/parser.py`), which agree on the token rules:

* whitespace separates tokens; `//` comments run to end of line;
* rule order is delimiters, literals (bool, integer, float, string),
  operators, identifiers — so a sign belongs to a numeric literal;
* integer `[+-]?[0-9]+` not followed by `.` (maximal digit run, per the
  spec's wording "no following ."); float `[+-]?` digits with a dot and
  at least one digit; strings are single- or double-quoted, span to the
  nearest matching quote, contain no newline, and receive **no escape
  processing** (the ancestor rule is the non-greedy `\x27.*?\x27|".*?"`);
* operator tokens use the spec's longest-match discipline (two-character
  operators win over their one-character prefixes); `<<` is lexed as
  `LShift` (the `Collect` member shares the same token text);
* booleans are the exact words `true`/`false` (followed by a
  non-identifier character); reserved words `not and or if do while`
  become operators at the identifier rule after maximal munch.

Numeric payloads are computed at token construction (spec §4.2 puts the
text-to-number conversion in the parser; fusing it into the token makes
no observable difference since the token text is never consulted again).
-/

def quoteS : Char := '\x27'

def isWS (c : Char) : Bool :=
  c = ' ' || c = '\n' || c = '\t' || c = '\r'

def isIdentStart (c : Char) : Bool := c.isAlpha || c = '_'

def isIdentChar (c : Char) : Bool := c.isAlpha || c.isDigit || c = '_'

/-- The delimiters `{ } [ ]` (and `( )` for tuple literals, which the
newer value model supports). -/
inductive Delim where
  | openBrace | closeBrace | openBrack | closeBrack | openParen | closeParen
deriving DecidableEq, Repr

/-- Lexer tokens, carrying their parsed payloads. -/
inductive Tok where
  | delim (d : Delim)
  | op (o : Op)
  | boolLit (b : Bool)
  | intLit (n : Int)
  | floatLit (q : ℚ)
  | strLit (s : String)
  | identTok (name : String)
deriving DecidableEq, Repr

/-- Skip the rest of a line comment (stops at the newline, which is then
consumed as whitespace). -/
def dropComment : List Char → List Char
  | [] => []
  | c :: cs => if c = '\n' then c :: cs else dropComment cs

theorem dropComment_length_le (cs : List Char) :
    (dropComment cs).length ≤ cs.length := by
  induction cs with
  | nil => exact le_rfl
  | cons c cs ih =>
      rw [dropComment]
      by_cases h : c = '\n'
      · rw [if_pos h]
      · rw [if_neg h]
        exact le_trans ih (Nat.le_succ _)

/-- Skip whitespace and `//` comments. -/
def dropWS : List Char → List Char
  | [] => []
  | '/' :: '/' :: cs => dropWS (dropComment cs)
  | c :: cs => if isWS c then dropWS cs else c :: cs
termination_by cs => cs.length
decreasing_by
  all_goals simp only [List.length_cons]
  · have := dropComment_length_le cs
    omega
  · omega

/-- Unfolding of `dropWS` at a head that does not start a comment. -/
theorem dropWS_cons (c : Char) (cs : List Char)
    (hside : ∀ cs2, c = '/' → cs = '/' :: cs2 → False) :
    dropWS (c :: cs) = if isWS c then dropWS cs else c :: cs := by
  rw [dropWS.eq_def]
  split
  · rename_i heq
    cases heq
  · rename_i cs2 heq
    rw [List.cons.injEq] at heq
    exact absurd (hside cs2 heq.1 heq.2) not_false
  · rename_i c2 cs2 hs2 heq
    rw [List.cons.injEq] at heq
    rw [heq.1, heq.2]

theorem dropWS_length_le (cs : List Char) : (dropWS cs).length ≤ cs.length := by
  induction cs using dropWS.induct with
  | case1 => rw [dropWS]
  | case2 cs ih =>
      rw [dropWS]
      have := dropComment_length_le cs
      simp only [List.length_cons]
      omega
  | case3 c cs hside hws ih =>
      rw [dropWS_cons c cs hside, if_pos hws]
      simp only [List.length_cons]
      omega
  | case4 c cs hside hws =>
      rw [dropWS_cons c cs hside, if_neg hws]

/-- Scan a string literal body up to the closing quote `q`; fails at a
newline or end of input (the ancestor regex `.` does not cross lines). -/
def scanStr (q : Char) : List Char → Option (List Char × List Char)
  | [] => none
  | c :: cs =>
      if c = q then some ([], cs)
      else if c = '\n' then none
      else
        match scanStr q cs with
        | some (s, rest) => some (c :: s, rest)
        | none => none

theorem scanStr_length_lt (q : Char) :
    ∀ (cs s rest : List Char), scanStr q cs = some (s, rest) →
      rest.length < cs.length := by
  intro cs
  induction cs with
  | nil => intro s rest h; cases h
  | cons c cs ih =>
      intro s rest h
      rw [scanStr] at h
      by_cases hq : c = q
      · rw [if_pos hq] at h
        cases h
        simp
      · rw [if_neg hq] at h
        by_cases hn : c = '\n'
        · rw [if_pos hn] at h; cases h
        · rw [if_neg hn] at h
          cases hrec : scanStr q cs with
          | none => rw [hrec] at h; cases h
          | some pr =>
              obtain ⟨s0, rest0⟩ := pr
              rw [hrec] at h
              have hlt := ih s0 rest0 hrec
              cases h
              simp only [List.length_cons]
              omega

/-!  Decimal digits (Python `str`/`int`/`float` on decimal text).  -/

/-- Value of a run of decimal digit characters, most significant first. -/
def digitsToNat (ds : List Char) : Nat :=
  ds.foldl (fun n c => 10 * n + (c.toNat - 48)) 0

def digitChar (d : Nat) : Char := Char.ofNat (48 + d)

/-- Decimal rendering of a natural number (the positional algorithm
behind Python `str`). -/
def renderNat (n : Nat) : List Char :=
  if n < 10 then [digitChar n]
  else renderNat (n / 10) ++ [digitChar (n % 10)]
termination_by n
decreasing_by
  have : 0 < n := by omega
  exact Nat.div_lt_self this (by omega)

/-- `str(n)` for a Python int (`IntValue.format`). -/
def renderInt (n : Int) : String :=
  if n < 0 then String.mk ('-' :: renderNat n.natAbs)
  else String.mk (renderNat n.natAbs)

/-- Integer literal payload (`int(text)`). -/
def mkInt (neg : Bool) (ds : List Char) : Int :=
  if neg then -(digitsToNat ds : Int) else (digitsToNat ds : Int)

/-- Float literal payload (`float(text)`), as the exact decimal value. -/
def mkDecimal (neg : Bool) (ip fp : List Char) : ℚ :=
  let q : ℚ := (digitsToNat ip : ℚ) + (digitsToNat fp : ℚ) / (10 : ℚ) ^ fp.length
  if neg then -q else q

/-- Numeric literal matching after the optional sign: a maximal digit
run; a following `.` makes it a float (with further fraction digits),
otherwise it is an integer (this realises the spec's "no following `.`"
lookahead); no digits at all (and no `.digits` form) fails. -/
def matchNumBody (neg : Bool) (cs : List Char) : Option (Tok × List Char) :=
  match cs.takeWhile Char.isDigit, cs.dropWhile Char.isDigit with
  | [], '.' :: rest2 =>
      let fs := rest2.takeWhile Char.isDigit
      let rest3 := rest2.dropWhile Char.isDigit
      if fs.isEmpty then none
      else some (.floatLit (mkDecimal neg [] fs), rest3)
  | [], _ => none
  | ds, '.' :: rest2 =>
      let fs := rest2.takeWhile Char.isDigit
      let rest3 := rest2.dropWhile Char.isDigit
      some (.floatLit (mkDecimal neg ds fs), rest3)
  | ds, rest => some (.intLit (mkInt neg ds), rest)

/-- Numeric literal matching: optional sign then `matchNumBody`. -/
def matchNumber : List Char → Option (Tok × List Char)
  | '+' :: cs => matchNumBody false cs
  | '-' :: cs => matchNumBody true cs
  | cs => matchNumBody false cs

/-- Does the list start with an identifier character? (Word-boundary
check for the exact words `true`/`false`.) -/
def startsIdent : List Char → Bool
  | [] => false
  | c :: _ => isIdentChar c

/-- Boolean literal matching: the exact words `true`/`false`. -/
def matchBool (cs : List Char) : Option (Tok × List Char) :=
  if cs.take 4 = "true".data ∧ ¬ startsIdent (cs.drop 4) then
    some (.boolLit true, cs.drop 4)
  else if cs.take 5 = "false".data ∧ ¬ startsIdent (cs.drop 5) then
    some (.boolLit false, cs.drop 5)
  else none

/-- Two-character operator tokens (matched before their one-character
prefixes, the spec's longest-match discipline). -/
def matchOp2 (a b : Char) : Option Op :=
  if a = '*' ∧ b = '*' then some .Pow
  else if a = '.' ∧ b = '.' then some .Dup
  else if a = '<' ∧ b = '<' then some .LShift
  else if a = '>' ∧ b = '>' then some .RShift
  else if a = '<' ∧ b = '=' then some .LE
  else if a = '>' ∧ b = '=' then some .GE
  else if a = '~' ∧ b = '=' then some .NE
  else none

/-- One-character operator tokens. -/
def matchOp1 (a : Char) : Option Op :=
  if a = '~' then some .Invert
  else if a = Char.ofNat 96 then some .Inspect
  else if a = '!' then some .Eval
  else if a = ',' then some .Drop
  else if a = ';' then some .Break
  else if a = ':' then some .Assign
  else if a = '+' then some .Add
  else if a = '-' then some .Sub
  else if a = '*' then some .Mul
  else if a = '/' then some .Div
  else if a = '%' then some .Mod
  else if a = '|' then some .BitOr
  else if a = '&' then some .BitAnd
  else if a = '^' then some .BitXor
  else if a = '<' then some .LT
  else if a = '>' then some .GT
  else if a = '=' then some .Equal
  else if a = '$' then some .Index
  else if a = '#' then some .Size
  else none

/-- Operator token matching, longest first. -/
def matchOp : List Char → Option (Tok × List Char)
  | a :: b :: cs =>
      (match matchOp2 a b with
       | some o => some (.op o, cs)
       | none =>
           match matchOp1 a with
           | some o => some (.op o, b :: cs)
           | none => none)
  | [a] =>
      (match matchOp1 a with
       | some o => some (.op o, ([] : List Char))
       | none => none)
  | [] => none

/-- Reserved words handled at the identifier rule. -/
def reservedOp (s : String) : Option Op :=
  if s = "not" then some .Not
  else if s = "and" then some .And
  else if s = "or" then some .Or
  else if s = "if" then some .If
  else if s = "do" then some .Do
  else if s = "while" then some .While
  else none

/-- Identifier matching: `[A-Za-z_][A-Za-z0-9_]*` with maximal munch,
then the reserved-word lookup. -/
def matchIdent : List Char → Option (Tok × List Char)
  | [] => none
  | c :: cs =>
      if isIdentStart c then
        let name := String.mk (c :: cs.takeWhile isIdentChar)
        match reservedOp name with
        | some o => some (.op o, cs.dropWhile isIdentChar)
        | none => some (.identTok name, cs.dropWhile isIdentChar)
      else none

/-- Delimiter characters. -/
def matchDelim (c : Char) : Option Delim :=
  if c = '\x7b' then some .openBrace
  else if c = '\x7d' then some .closeBrace
  else if c = '[' then some .openBrack
  else if c = ']' then some .closeBrack
  else if c = '(' then some .openParen
  else if c = ')' then some .closeParen
  else none

/-- Match one token at the current position (whitespace already
skipped): delimiters, then literals (bool, number, string), then
operators, then identifiers — the ancestor lexer's rule order. -/
def matchToken : List Char → Option (Tok × List Char)
  | [] => none
  | c :: cs =>
      match matchDelim c with
      | some d => some (.delim d, cs)
      | none =>
          match matchBool (c :: cs) with
          | some r => some r
          | none =>
              match matchNumber (c :: cs) with
              | some r => some r
              | none =>
                  if c = quoteS ∨ c = '"' then
                    match scanStr c cs with
                    | some (s, rest) => some (.strLit (String.mk s), rest)
                    | none => none
                  else
                    match matchOp (c :: cs) with
                    | some r => some r
                    | none => matchIdent (c :: cs)

/-!  Every matched token consumes at least one character.  -/

theorem length_dropWhile_le (p : Char → Bool) (l : List Char) :
    (l.dropWhile p).length ≤ l.length :=
  List.IsSuffix.length_le (List.dropWhile_suffix p)

theorem matchNumBody_lt (neg : Bool) (cs : List Char) (t : Tok)
    (rest : List Char) (h : matchNumBody neg cs = some (t, rest)) :
    rest.length < cs.length := by
  have hlen : (cs.takeWhile Char.isDigit).length
      + (cs.dropWhile Char.isDigit).length = cs.length := by
    rw [← List.length_append, List.takeWhile_append_dropWhile]
  unfold matchNumBody at h
  split at h
  · rename_i x1 x2 rest2 heq1 heq2
    dsimp only at h
    split at h
    · cases h
    · cases h
      rw [heq1, heq2] at hlen
      have := length_dropWhile_le Char.isDigit rest2
      simp only [List.length_nil, List.length_cons] at hlen
      omega
  · exact Option.noConfusion h
  · rename_i x ds rest2 hne heq1 heq2
    dsimp only at h
    cases h
    rw [hne] at hlen
    have h2 : 0 < (cs.takeWhile Char.isDigit).length :=
      List.length_pos.mpr (fun hh => heq1 hh)
    have := length_dropWhile_le Char.isDigit rest2
    simp only [List.length_cons] at hlen
    omega
  · rename_i ds rest0 hnd heq1 heq2
    cases h
    have h2 : 0 < (cs.takeWhile Char.isDigit).length :=
      List.length_pos.mpr (fun hh => hnd hh)
    omega

theorem matchNumber_lt (cs : List Char) (t : Tok) (rest : List Char)
    (h : matchNumber cs = some (t, rest)) : rest.length < cs.length := by
  unfold matchNumber at h
  split at h
  · rename_i cs2
    have := matchNumBody_lt false cs2 t rest h
    simp only [List.length_cons]
    omega
  · rename_i cs2
    have := matchNumBody_lt true cs2 t rest h
    simp only [List.length_cons]
    omega
  · exact matchNumBody_lt false cs t rest h

theorem matchBool_lt (cs : List Char) (t : Tok) (rest : List Char)
    (h : matchBool cs = some (t, rest)) : rest.length < cs.length := by
  unfold matchBool at h
  split at h
  · rename_i hc
    cases h
    have h4 : (cs.take 4).length = 4 := by rw [hc.1]; rfl
    simp only [List.length_take] at h4
    simp only [List.length_drop]
    omega
  · split at h
    · rename_i hc
      cases h
      have h5 : (cs.take 5).length = 5 := by rw [hc.1]; rfl
      simp only [List.length_take] at h5
      simp only [List.length_drop]
      omega
    · cases h

theorem matchOp_lt (cs : List Char) (t : Tok) (rest : List Char)
    (h : matchOp cs = some (t, rest)) : rest.length < cs.length := by
  unfold matchOp at h
  split at h
  · rename_i a b cs2
    split at h
    · cases h
      simp only [List.length_cons]
      omega
    · split at h
      · cases h
        simp only [List.length_cons]
        omega
      · cases h
  · rename_i a
    split at h
    · cases h
      simp
    · cases h
  · cases h

theorem matchIdent_lt (cs : List Char) (t : Tok) (rest : List Char)
    (h : matchIdent cs = some (t, rest)) : rest.length < cs.length := by
  unfold matchIdent at h
  split at h
  · cases h
  · rename_i c cs2
    split at h
    · have hd := length_dropWhile_le isIdentChar cs2
      dsimp only at h
      split at h <;>
        (cases h
         simp only [List.length_cons]
         omega)
    · cases h

theorem matchToken_lt (cs : List Char) (t : Tok) (rest : List Char)
    (h : matchToken cs = some (t, rest)) : rest.length < cs.length := by
  unfold matchToken at h
  split at h
  · cases h
  · rename_i c cs2
    split at h
    · cases h
      simp
    · split at h
      · rename_i r hb
        cases h
        exact matchBool_lt _ _ _ hb
      · split at h
        · rename_i r hn
          cases h
          exact matchNumber_lt _ _ _ hn
        · split at h
          · split at h
            · rename_i s0 rest0 hs
              have hlt := scanStr_length_lt c cs2 s0 rest0 hs
              cases h
              simp only [List.length_cons]
              omega
            · cases h
          · split at h
            · rename_i r ho
              cases h
              exact matchOp_lt _ _ _ ho
            · exact matchIdent_lt _ _ _ h

/-- The lexer loop with explicit fuel (any fuel above the input length
gives the same result, see `lexLoop_fuel`): skip whitespace/comments,
match one token, repeat.  `none` is a lexical error. -/
def lexLoop : Nat → List Char → Option (List Tok)
  | 0, _ => none
  | fuel + 1, cs =>
      match dropWS cs with
      | [] => some []
      | c :: cs2 =>
          match matchToken (c :: cs2) with
          | none => none
          | some (t, rest) =>
              match lexLoop fuel rest with
              | some ts => some (t :: ts)
              | none => none

/-- The lexer. -/
def lexChars (cs : List Char) : Option (List Tok) :=
  lexLoop (cs.length + 1) cs

/-- The lexer loop is fuel-irrelevant above the input length: each token
consumes at least one character. -/
theorem lexLoop_fuel :
    ∀ (fuel : Nat) (cs : List Char), cs.length < fuel →
      lexLoop fuel cs = lexLoop (cs.length + 1) cs := by
  intro fuel
  induction fuel using Nat.strong_induction_on with
  | _ fuel ih =>
      match fuel with
      | 0 => intro cs h; omega
      | f + 1 =>
          intro cs h
          show (match dropWS cs with
                | [] => some []
                | c :: cs2 =>
                    match matchToken (c :: cs2) with
                    | none => none
                    | some (t, rest) =>
                        match lexLoop f rest with
                        | some ts => some (t :: ts)
                        | none => none)
            = (match dropWS cs with
                | [] => some []
                | c :: cs2 =>
                    match matchToken (c :: cs2) with
                    | none => none
                    | some (t, rest) =>
                        match lexLoop cs.length rest with
                        | some ts => some (t :: ts)
                        | none => none)
          cases hd : dropWS cs with
          | nil => rfl
          | cons c cs2 =>
              dsimp only
              cases hm : matchToken (c :: cs2) with
              | none => rfl
              | some pr =>
                  obtain ⟨t, rest⟩ := pr
                  dsimp only
                  have hle : (c :: cs2).length ≤ cs.length := by
                    rw [← hd]
                    exact dropWS_length_le cs
                  have hlt := matchToken_lt _ _ _ hm
                  have hr : rest.length < cs.length := by
                    simp only [List.length_cons] at hle hlt
                    omega
                  rw [ih f (by omega) rest (by omega),
                    ih cs.length (by omega) rest hr]

/-- Clean one-step unfolding of the lexer. -/
theorem lexChars_step (cs : List Char) :
    lexChars cs =
      (match dropWS cs with
       | [] => some []
       | c :: cs2 =>
           match matchToken (c :: cs2) with
           | none => none
           | some (t, rest) =>
               match lexChars rest with
               | some ts => some (t :: ts)
               | none => none) := by
  show (match dropWS cs with
        | [] => some []
        | c :: cs2 =>
            match matchToken (c :: cs2) with
            | none => none
            | some (t, rest) =>
                match lexLoop cs.length rest with
                | some ts => some (t :: ts)
                | none => none)
    = _
  cases hd : dropWS cs with
  | nil => rfl
  | cons c cs2 =>
      dsimp only
      cases hm : matchToken (c :: cs2) with
      | none => rfl
      | some pr =>
          obtain ⟨t, rest⟩ := pr
          dsimp only
          have hle : (c :: cs2).length ≤ cs.length := by
            rw [← hd]
            exact dropWS_length_le cs
          have hlt := matchToken_lt _ _ _ hm
          have hr : rest.length < cs.length := by
            simp only [List.length_cons] at hle hlt
            omega
          unfold lexChars
          rw [lexLoop_fuel cs.length rest hr]

/-!  ## Parser (modelled from the spec §4.2)

Non-delimiter tokens map one-for-one to symbols; an opening delimiter
starts collecting symbols for a compound literal until its matching
closer.  The recursive routine of the spec is realised iteratively with
an explicit stack of pending compound literals — same language, and
structural recursion over the token list. -/

def isOpener : Delim → Bool
  | .openBrace => true
  | .openBrack => true
  | .openParen => true
  | _ => false

def matchingClose : Delim → Delim
  | .openBrace => .closeBrace
  | .openBrack => .closeBrack
  | .openParen => .closeParen
  | d => d

/-- Compound literal for an opening delimiter. -/
def mkCompound (d : Delim) (syms : List Sym) : Sym :=
  match d with
  | .openBrack => .litArray syms
  | .openParen => .litTuple syms
  | _ => .litBlock syms

/-- One-for-one translation of non-delimiter tokens. -/
def tokSymSimple (t : Tok) : Sym :=
  match t with
  | .op o => .opSym o
  | .boolLit b => .litBool b
  | .intLit n => .litInt n
  | .floatLit q => .litFloat q
  | .strLit s => .litStr s
  | .identTok n => .ident n
  | .delim _ => .ident ""

/-- The parser loop: `stack` holds the pending opening delimiters with
the symbols accumulated outside them; `acc` the symbols of the current
level in reverse order. -/
def parseLoop : List Tok → List (Delim × List Sym) → List Sym →
    Except String (List Sym)
  | [], [], acc => .ok acc.reverse
  | [], _ :: _, _ => .error "unmatched opening delimiter"
  | .delim d :: ts, stack, acc =>
      if isOpener d then parseLoop ts ((d, acc) :: stack) []
      else
        match stack with
        | [] => .error "unmatched closing delimiter"
        | (d0, outer) :: stack2 =>
            if matchingClose d0 = d then
              parseLoop ts stack2 (mkCompound d0 acc.reverse :: outer)
            else .error "mismatched delimiter"
  | t :: ts, stack, acc => parseLoop ts stack (tokSymSimple t :: acc)

/-- Lexer followed by parser. -/
def parseText (text : String) : Except String (List Sym) :=
  match lexChars text.data with
  | none => .error "lexical error"
  | some ts => parseLoop ts [] []

/-!  ## Canonical renderings and `format`  -/

/-- Token text of each operator (`operators/defines.py`). -/
def opText : Op → String
  | .Invert => "~"
  | .Inspect => String.mk [Char.ofNat 96]
  | .Eval => "!"
  | .Dup => ".."
  | .Drop => ","
  | .Break => ";"
  | .Assign => ":"
  | .Add => "+"
  | .Sub => "-"
  | .Mul => "*"
  | .Div => "/"
  | .Mod => "%"
  | .Pow => "**"
  | .BitOr => "|"
  | .BitAnd => "&"
  | .BitXor => "^"
  | .LShift => "<<"
  | .RShift => ">>"
  | .LT => "<"
  | .LE => "<="
  | .GT => ">"
  | .GE => ">="
  | .NE => "~="
  | .Equal => "="
  | .Index => "$"
  | .Size => "#"
  | .Collect => "<<"
  | .Not => "not"
  | .And => "and"
  | .Or => "or"
  | .If => "if"
  | .Do => "do"
  | .While => "while"

/-- `str(float)` for an exactly-decimal rational: digits with a decimal
point, at least one digit on each side (Python renders moderate-magnitude
doubles this way; exponent display for extreme magnitudes and IEEE
shortest-repr rounding are floating-point artifacts outside this model,
which treats floats as exact decimals). -/
def formatFloat (q : ℚ) : String :=
  let den := q.den
  let a := Nat.maxPowDiv 2 den
  let b := Nat.maxPowDiv 5 den
  let e := max a b
  if 2 ^ a * 5 ^ b = den then
    let m := q.num.natAbs * (10 ^ e / den)
    let ip := m / 10 ^ e
    let fp := m % 10 ^ e
    let fracS :=
      if e = 0 then ['0']
      else List.replicate (e - (renderNat fp).length) '0' ++ renderNat fp
    String.mk ((if q.num < 0 then ['-'] else []) ++ renderNat ip ++ '.' :: fracS)
  else "0.0"

def hexDigit (n : Nat) : Char :=
  if n < 10 then digitChar n else Char.ofNat (97 + (n - 10))

/-- One character of Python `repr` output for a string, given the chosen
quote.  (Non-ASCII printability classes are not modelled; the claims only
evaluate this on ASCII.) -/
def escapeChar (q c : Char) : List Char :=
  if c = '\\' then ['\\', '\\']
  else if c = q then ['\\', q]
  else if c = '\n' then ['\\', 'n']
  else if c = '\r' then ['\\', 'r']
  else if c = '\t' then ['\\', 't']
  else if c.toNat < 32 ∨ c.toNat = 127 then
    ['\\', 'x', hexDigit (c.toNat / 16), hexDigit (c.toNat % 16)]
  else [c]

/-- Python `repr(s)`: single quotes unless the string contains a single
quote and no double quote; escapes applied to the contents.
`StringValue.format` is exactly this (values.py line 176). -/
def pyRepr (s : String) : String :=
  let q := if s.data.contains quoteS ∧ ¬ s.data.contains '"' then '"' else quoteS
  String.mk (q :: s.data.flatMap (escapeChar q) ++ [q])

/-- A well-formed source spelling of a string literal: a quote not
occurring in the contents, no escape processing. -/
def quoteRender (s : String) : String :=
  let q := if s.data.contains quoteS then '"' else quoteS
  String.mk (q :: s.data ++ [q])

mutual

/-- Canonical source text of a symbol — the model of the `meta.text`
metadata that `BlockValue.format` joins (parser-produced symbols carry
the matched source span; the canonical render is that span normalised to
single spaces). -/
def symRender : Sym → String
  | .ident n => n
  | .opSym o => opText o
  | .litBool b => if b then "true" else "false"
  | .litInt n => renderInt n
  | .litFloat q => formatFloat q
  | .litStr s => quoteRender s
  | .litArray l => "[" ++ joinRender l ++ "]"
  | .litTuple l => "(" ++ joinRender l ++ ")"
  | .litBlock l => "\x7b " ++ joinRender l ++ " \x7d"

/-- `' '.join` of symbol renders. -/
def joinRender : List Sym → String
  | [] => ""
  | [s] => symRender s
  | s :: rest => symRender s ++ " " ++ joinRender rest

end

mutual

/-- `format()` of each value (values.py): booleans as their words, ints
and floats as `str(...)`, strings through `repr`, tuples/arrays/blocks as
delimited joins of their members' formats (for blocks, of their symbols'
source texts), `NameValue` as the bare name and `IndexValue` as
`array index $`. -/
def formatV : Value → String
  | .bool b => if b then "true" else "false"
  | .int n => renderInt n
  | .float q => formatFloat q
  | .str s => pyRepr s
  | .tuple xs => "(" ++ joinFormat xs ++ ")"
  | .array xs => "[" ++ joinFormat xs ++ "]"
  | .block syms => "\x7b " ++ joinRender syms ++ " \x7d"
  | .nameTarget n => n
  | .indexTarget arr i => "[" ++ joinFormat arr ++ "]" ++ " " ++ renderInt i ++ " $"

/-- `' '.join` of member formats. -/
def joinFormat : List Value → String
  | [] => ""
  | [v] => formatV v
  | v :: rest => formatV v ++ " " ++ joinFormat rest

end

mutual

/-- The token sequence of a symbol's canonical render. -/
def symToks : Sym → List Tok
  | .ident n => [.identTok n]
  | .opSym o => [.op o]
  | .litBool b => [.boolLit b]
  | .litInt n => [.intLit n]
  | .litFloat q => [.floatLit q]
  | .litStr s => [.strLit s]
  | .litArray l => .delim .openBrack :: joinToks l ++ [.delim .closeBrack]
  | .litTuple l => .delim .openParen :: joinToks l ++ [.delim .closeParen]
  | .litBlock l => .delim .openBrace :: joinToks l ++ [.delim .closeBrace]

def joinToks : List Sym → List Tok
  | [] => []
  | s :: rest => symToks s ++ joinToks rest

end

/-!  ## Evaluation of literal symbol streams

The round trip only ever evaluates literal symbols: `format` output
contains no top-level operators or identifiers.  Simple literals
construct their value directly; array/tuple literals execute their
payload in a child context and collect its stack bottom-up
(`runtime.py` `ContextFrame.eval`); block literals capture their payload
unexecuted.  Operator symbols would invoke the dispatcher (modelled
separately above) and identifiers the namespace — both yield errors here,
matching an empty root namespace and marking the out-of-scope case. -/

mutual

def evalSym : Sym → Except Err Value
  | .ident name => .error (.nameError ("could not resolve identifier " ++ name))
  | .opSym _ => .error (.operandError "operator symbol in literal stream" [])
  | .litBool b => .ok (.bool b)
  | .litInt n => .ok (.int n)
  | .litFloat q => .ok (.float q)
  | .litStr s => .ok (.str s)
  | .litBlock syms => .ok (.block syms)
  | .litArray syms =>
      match execList syms [] with
      | .ok st => .ok (.array st.reverse)
      | .error e => .error e
  | .litTuple syms =>
      match execList syms [] with
      | .ok st => .ok (.tuple st.reverse)
      | .error e => .error e

/-- `ContextFrame.exec` on a literal stream: evaluate each symbol and
push (stack is top-first). -/
def execList : List Sym → List Value → Except Err (List Value)
  | [], stack => .ok stack
  | s :: rest, stack =>
      match evalSym s with
      | .ok v => execList rest (v :: stack)
      | .error e => .error e

end

/-- `run_script`: parse and execute on an empty root context, producing
the final stack (top-first). -/
def runScript (text : String) : Except String (List Value) :=
  match parseText text with
  | .error e => .error e
  | .ok syms =>
      match execList syms [] with
      | .ok stack => .ok stack
      | .error _ => .error "script error"

mutual

/-- The literal symbol that `format v` parses back to. -/
def symOf : Value → Sym
  | .bool b => .litBool b
  | .int n => .litInt n
  | .float q => .litFloat q
  | .str s => .litStr s
  | .tuple xs => .litTuple (symOfList xs)
  | .array xs => .litArray (symOfList xs)
  | .block syms => .litBlock syms
  | .nameTarget n => .ident n
  | .indexTarget _ _ => .ident ""

def symOfList : List Value → List Sym
  | [] => []
  | v :: rest => symOf v :: symOfList rest

end

/-!  ## Cleanliness: the class of values for which the round trip holds  -/

/-- A name that lexes back to exactly itself: identifier syntax, not a
reserved word, not a boolean word. -/
def identCleanName (n : String) : Bool :=
  (match n.data with
   | [] => false
   | c :: rest => isIdentStart c && rest.all isIdentChar) &&
  (reservedOp n).isNone && !(n == "true") && !(n == "false")

/-- A float value exactly representable as a finite decimal (as every
IEEE double is: the denominator is a product of twos and fives). -/
def floatClean (q : ℚ) : Bool :=
  2 ^ (Nat.maxPowDiv 2 q.den) * 5 ^ (Nat.maxPowDiv 5 q.den) = q.den

/-- String contents spellable as a source literal: some quote does not
occur in it, and it has no newline (the string rule cannot cross lines). -/
def strCleanLit (s : String) : Bool :=
  !(s.data.contains quoteS && s.data.contains '"') && s.data.all (fun c => !(c = '\n'))

/-- String contents that survive Python `repr` unescaped: printable
ASCII, no backslash, and not both quote characters. -/
def strCleanSrc (s : String) : Bool :=
  !(s.data.contains quoteS && s.data.contains '"') &&
  s.data.all (fun c => !(c = '\\') && 32 ≤ c.toNat && c.toNat ≤ 126)

mutual

/-- Symbols whose canonical render lexes back to exactly themselves. -/
def cleanSym : Sym → Bool
  | .ident n => identCleanName n
  | .opSym o => !(o == Op.Collect)
  | .litBool _ => true
  | .litInt _ => true
  | .litFloat q => floatClean q
  | .litStr s => strCleanLit s
  | .litArray l => cleanSymList l
  | .litTuple l => cleanSymList l
  | .litBlock l => cleanSymList l

def cleanSymList : List Sym → Bool
  | [] => true
  | s :: rest => cleanSym s && cleanSymList rest

end

mutual

/-- Values in the round-trip class: strings survive `repr` unescaped,
floats are finite decimals, block symbols are clean, and pseudo-values
are excluded. -/
def cleanV : Value → Bool
  | .bool _ => true
  | .int _ => true
  | .float q => floatClean q
  | .str s => strCleanSrc s
  | .tuple xs => cleanVList xs
  | .array xs => cleanVList xs
  | .block syms => cleanSymList syms
  | .nameTarget _ => false
  | .indexTarget _ _ => false

def cleanVList : List Value → Bool
  | [] => true
  | v :: rest => cleanV v && cleanVList rest

end

/-- Claim C9 (counterexample): the round trip fails for the one-character
string consisting of a backslash.  `StringValue.format` is Python `repr`,
which escapes the backslash, while the lexer performs no escape
processing (spec §4.1, and the ancestor string rule), so parsing the
formatted text yields the two-character string of two backslashes, not a
value equal to the original. -/
theorem claim_C9_counterexample :
    runScript (formatV (Value.str (String.mk ['\\'])))
      = .ok [Value.str (String.mk ['\\', '\\'])]
  ∧ Value.str (String.mk ['\\', '\\']) ≠ Value.str (String.mk ['\\']) := by
  constructor
  · have h1 : formatV (Value.str (String.mk ['\\']))
        = String.mk [quoteS, '\\', '\\', quoteS] := rfl
    have hws : dropWS [quoteS, '\\', '\\', quoteS]
        = [quoteS, '\\', '\\', quoteS] := by
      rw [dropWS_cons _ _ (fun cs2 h _ => absurd h (by decide)),
        if_neg (by decide)]
    have hmt : matchToken [quoteS, '\\', '\\', quoteS]
        = some (.strLit (String.mk ['\\', '\\']), []) := rfl
    have hlex0 : lexChars ([] : List Char) = some [] := by
      rw [lexChars_step, show dropWS ([] : List Char) = [] by rw [dropWS]]
    have hlex : lexChars [quoteS, '\\', '\\', quoteS]
        = some [.strLit (String.mk ['\\', '\\'])] := by
      rw [lexChars_step, hws]
      dsimp only
      rw [hmt]
      dsimp only
      rw [hlex0]
    rw [h1]
    unfold runScript parseText
    rw [show (String.mk [quoteS, '\\', '\\', quoteS]).data
        = [quoteS, '\\', '\\', quoteS] from rfl, hlex]
    rfl
  · intro h
    simp only [Value.str.injEq] at h
    exact absurd h (by decide)

/-!  ## Round-trip proof: token-level lemmas  -/

/-- A character list that may legally follow a rendered token: empty, or
starting with a space or a closing bracket (the only contexts in which
`format` places one token after another without a space). -/
def SafeHead (cs : List Char) : Prop :=
  cs = [] ∨ ∃ c cs2, cs = c :: cs2 ∧ (c = ' ' ∨ c = ']' ∨ c = ')')

/-- `dropWS` is the identity when the head is neither whitespace nor the
start of a comment. -/
theorem dropWS_id (c : Char) (cs : List Char) (h1 : isWS c = false)
    (h2 : ∀ cs2, c = '/' → cs = '/' :: cs2 → False) :
    dropWS (c :: cs) = c :: cs := by
  rw [dropWS_cons c cs h2, if_neg (by simp [h1])]

/-- One lexer step through a matched token. -/
theorem lexChars_of_matchToken (cs : List Char) (t : Tok) (rest : List Char)
    (hnws : dropWS cs = cs) (hne : cs ≠ [])
    (hm : matchToken cs = some (t, rest)) :
    lexChars cs = Option.map (fun ts => t :: ts) (lexChars rest) := by
  rw [lexChars_step, hnws]
  cases cs with
  | nil => exact absurd rfl hne
  | cons c cs2 =>
      dsimp only
      rw [hm]
      dsimp only
      cases lexChars rest <;> rfl

/-- The lexer skips a leading whitespace character. -/
theorem lexChars_ws (c : Char) (x : List Char) (hc : isWS c = true) :
    lexChars (c :: x) = lexChars x := by
  have hslash : c ≠ '/' := by
    intro h
    rw [h] at hc
    exact absurd hc (by decide)
  rw [lexChars_step, dropWS_cons c x (fun cs2 h _ => hslash h), if_pos hc,
    ← lexChars_step]

/-- `takeWhile`/`dropWhile` through an append whose first part satisfies
the predicate throughout and whose second part starts falsifying it. -/
theorem takeWhile_append_all (p : Char → Bool) (a b : List Char)
    (ha : ∀ c ∈ a, p c = true)
    (hb : b = [] ∨ ∃ c cs2, b = c :: cs2 ∧ p c = false) :
    (a ++ b).takeWhile p = a ∧ (a ++ b).dropWhile p = b := by
  induction a with
  | nil =>
      simp only [List.nil_append]
      rcases hb with rfl | ⟨c, cs2, rfl, hc⟩
      · exact ⟨rfl, rfl⟩
      · rw [List.takeWhile_cons, List.dropWhile_cons]
        rw [hc]
        exact ⟨rfl, rfl⟩
  | cons x xs ih =>
      have hx : p x = true := ha x (by simp)
      have ih2 := ih (fun c hc => ha c (by simp [hc]))
      rw [List.cons_append, List.takeWhile_cons, List.dropWhile_cons, hx]
      simp only [if_true]
      exact ⟨by rw [ih2.1], by rw [ih2.2]⟩

/-- `scanStr` recovers exactly the contents when the closing quote is the
first occurrence of the quote and no newline intervenes. -/
theorem scanStr_exact (q : Char) (s rest : List Char)
    (hq : q ∉ s) (hn : '\n' ∉ s) :
    scanStr q (s ++ q :: rest) = some (s, rest) := by
  induction s with
  | nil =>
      rw [List.nil_append, scanStr, if_pos rfl]
  | cons c cs ih =>
      have hcq : c ≠ q := fun h => hq (by rw [h]; exact List.mem_cons_self _ _)
      have hcn : c ≠ '\n' := fun h => hn (by rw [h]; exact List.mem_cons_self _ _)
      rw [List.cons_append, scanStr, if_neg hcq, if_neg hcn,
        ih (fun h => hq (List.mem_cons_of_mem _ h))
           (fun h => hn (List.mem_cons_of_mem _ h))]

/-!  ### Character-class facts  -/

/-- Two characters in complementary classes are distinct. -/
theorem char_ne (p : Char → Bool) {c d : Char} (hc : p c = true)
    (hd : p d = false) : c ≠ d := by
  intro h
  rw [h] at hc
  rw [hc] at hd
  cases hd

theorem isIdentStart_isIdentChar (c : Char) (h : isIdentStart c = true) :
    isIdentChar c = true := by
  rw [isIdentStart, Bool.or_eq_true] at h
  rw [isIdentChar, Bool.or_eq_true, Bool.or_eq_true]
  rcases h with h | h
  · exact Or.inl (Or.inl h)
  · exact Or.inr h

theorem isWS_false_of (c : Char) (h1 : c ≠ ' ') (h2 : c ≠ '\n')
    (h3 : c ≠ '\t') (h4 : c ≠ '\r') : isWS c = false := by
  simp [isWS, h1, h2, h3, h4]

theorem matchDelim_none_of (c : Char) (h1 : c ≠ '\x7b') (h2 : c ≠ '\x7d')
    (h3 : c ≠ '[') (h4 : c ≠ ']') (h5 : c ≠ '(') (h6 : c ≠ ')') :
    matchDelim c = none := by
  simp [matchDelim, h1, h2, h3, h4, h5, h6]

theorem matchOp2_none_left (a b : Char) (h1 : a ≠ '*') (h2 : a ≠ '.')
    (h3 : a ≠ '<') (h4 : a ≠ '>') (h5 : a ≠ '~') : matchOp2 a b = none := by
  simp [matchOp2, h1, h2, h3, h4, h5]

theorem matchOp1_none_of (c : Char) (h1 : c ≠ '~') (h2 : c ≠ Char.ofNat 96)
    (h3 : c ≠ '!') (h4 : c ≠ ',') (h5 : c ≠ ';') (h6 : c ≠ ':')
    (h7 : c ≠ '+') (h8 : c ≠ '-') (h9 : c ≠ '*') (h10 : c ≠ '/')
    (h11 : c ≠ '%') (h12 : c ≠ '|') (h13 : c ≠ '&') (h14 : c ≠ '^')
    (h15 : c ≠ '<') (h16 : c ≠ '>') (h17 : c ≠ '=') (h18 : c ≠ '$')
    (h19 : c ≠ '#') : matchOp1 c = none := by
  simp [matchOp1, h1, h2, h3, h4, h5, h6, h7, h8, h9, h10, h11, h12, h13,
    h14, h15, h16, h17, h18, h19]

theorem matchOp_none (c : Char) (cs : List Char) (h1 : matchOp1 c = none)
    (h2 : ∀ b, matchOp2 c b = none) : matchOp (c :: cs) = none := by
  cases cs with
  | nil =>
      rw [matchOp, h1]
  | cons b cs2 =>
      rw [matchOp, h2 b]
      dsimp only
      rw [h1]

/-!  Ident-start characters avoid every other token class.  -/

theorem identStart_not_digit (c : Char) (h : isIdentStart c = true) :
    c.isDigit = false := by
  rw [isIdentStart, Bool.or_eq_true] at h
  rcases h with h | h
  · rw [Char.isAlpha, Bool.or_eq_true] at h
    simp only [Char.isUpper, Char.isLower, decide_eq_true_eq,
      Bool.and_eq_true] at h
    simp only [Char.isDigit, Bool.and_eq_false_iff, decide_eq_false_iff_not,
      not_le]
    right
    intro hle
    have g2 : c.val.toNat ≤ (57 : Nat) := hle
    rcases h with ⟨h1, _⟩ | ⟨h1, _⟩
    · have g1 : (65 : Nat) ≤ c.val.toNat := h1
      omega
    · have g1 : (97 : Nat) ≤ c.val.toNat := h1
      omega
  · rw [show c = '_' from by simpa using h]
    rfl

theorem matchOp1_none_identStart (c : Char) (h : isIdentStart c = true) :
    matchOp1 c = none :=
  matchOp1_none_of c
    (char_ne isIdentStart h (by decide)) (char_ne isIdentStart h (by decide))
    (char_ne isIdentStart h (by decide)) (char_ne isIdentStart h (by decide))
    (char_ne isIdentStart h (by decide)) (char_ne isIdentStart h (by decide))
    (char_ne isIdentStart h (by decide)) (char_ne isIdentStart h (by decide))
    (char_ne isIdentStart h (by decide)) (char_ne isIdentStart h (by decide))
    (char_ne isIdentStart h (by decide)) (char_ne isIdentStart h (by decide))
    (char_ne isIdentStart h (by decide)) (char_ne isIdentStart h (by decide))
    (char_ne isIdentStart h (by decide)) (char_ne isIdentStart h (by decide))
    (char_ne isIdentStart h (by decide)) (char_ne isIdentStart h (by decide))
    (char_ne isIdentStart h (by decide))

theorem matchOp2_none_identStart (c b : Char) (h : isIdentStart c = true) :
    matchOp2 c b = none :=
  matchOp2_none_left c b
    (char_ne isIdentStart h (by decide)) (char_ne isIdentStart h (by decide))
    (char_ne isIdentStart h (by decide)) (char_ne isIdentStart h (by decide))
    (char_ne isIdentStart h (by decide))

theorem matchOp1_none_digit (c : Char) (h : c.isDigit = true) :
    matchOp1 c = none :=
  matchOp1_none_of c
    (char_ne Char.isDigit h (by decide)) (char_ne Char.isDigit h (by decide))
    (char_ne Char.isDigit h (by decide)) (char_ne Char.isDigit h (by decide))
    (char_ne Char.isDigit h (by decide)) (char_ne Char.isDigit h (by decide))
    (char_ne Char.isDigit h (by decide)) (char_ne Char.isDigit h (by decide))
    (char_ne Char.isDigit h (by decide)) (char_ne Char.isDigit h (by decide))
    (char_ne Char.isDigit h (by decide)) (char_ne Char.isDigit h (by decide))
    (char_ne Char.isDigit h (by decide)) (char_ne Char.isDigit h (by decide))
    (char_ne Char.isDigit h (by decide)) (char_ne Char.isDigit h (by decide))
    (char_ne Char.isDigit h (by decide)) (char_ne Char.isDigit h (by decide))
    (char_ne Char.isDigit h (by decide))

/-!  ### `SafeHead` consequences  -/

theorem safeHead_class (p : Char → Bool) (h1 : p ' ' = false)
    (h2 : p ']' = false) (h3 : p ')' = false) (rest : List Char)
    (hr : SafeHead rest) :
    rest = [] ∨ ∃ c cs2, rest = c :: cs2 ∧ p c = false := by
  rcases hr with rfl | ⟨c, cs2, rfl, hc⟩
  · exact Or.inl rfl
  · refine Or.inr ⟨c, cs2, rfl, ?_⟩
    rcases hc with rfl | rfl | rfl <;> assumption

theorem safeHead_ne_head (d : Char) (h1 : d ≠ ' ') (h2 : d ≠ ']')
    (h3 : d ≠ ')') (rest : List Char) (hr : SafeHead rest) :
    ∀ cs2, rest = d :: cs2 → False := by
  intro cs2 heq
  rcases hr with rfl | ⟨c, cs3, rfl, hc⟩
  · cases heq
  · rw [List.cons.injEq] at heq
    rcases hc with rfl | rfl | rfl
    · exact h1 heq.1.symm
    · exact h2 heq.1.symm
    · exact h3 heq.1.symm

/-!  ### Unfolding `matchToken` through failing rules  -/

theorem matchToken_via (c : Char) (cs : List Char)
    (hdelim : matchDelim c = none)
    (hbool : matchBool (c :: cs) = none)
    (hnum : matchNumber (c :: cs) = none)
    (hquote : ¬(c = quoteS ∨ c = '"'))
    (hop : matchOp (c :: cs) = none) :
    matchToken (c :: cs) = matchIdent (c :: cs) := by
  rw [matchToken, hdelim]
  dsimp only
  rw [hbool]
  dsimp only
  rw [hnum]
  dsimp only
  rw [if_neg hquote, hop]

theorem matchToken_num (c : Char) (cs : List Char) (r : Tok × List Char)
    (hdelim : matchDelim c = none)
    (hbool : matchBool (c :: cs) = none)
    (hnum : matchNumber (c :: cs) = some r) :
    matchToken (c :: cs) = some r := by
  rw [matchToken, hdelim]
  dsimp only
  rw [hbool]
  dsimp only
  rw [hnum]

theorem matchToken_strq (c : Char) (cs s rest : List Char)
    (hdelim : matchDelim c = none)
    (hbool : matchBool (c :: cs) = none)
    (hnum : matchNumber (c :: cs) = none)
    (hq : c = quoteS ∨ c = '"')
    (hscan : scanStr c cs = some (s, rest)) :
    matchToken (c :: cs) = some (.strLit (String.mk s), rest) := by
  rw [matchToken, hdelim]
  dsimp only
  rw [hbool]
  dsimp only
  rw [hnum]
  dsimp only
  rw [if_pos hq, hscan]

/-!  ### `matchNumber` evaluation lemmas  -/

theorem matchNumber_nonsign (c : Char) (cs : List Char) (h1 : c ≠ '+')
    (h2 : c ≠ '-') : matchNumber (c :: cs) = matchNumBody false (c :: cs) := by
  rw [matchNumber.eq_def]
  split
  · rename_i cs2 heq
    rw [List.cons.injEq] at heq
    exact absurd heq.1 h1
  · rename_i cs2 heq
    rw [List.cons.injEq] at heq
    exact absurd heq.1 h2
  · rfl

theorem matchNumBody_none (neg : Bool) (cs : List Char)
    (h1 : cs.takeWhile Char.isDigit = [])
    (h2 : ∀ r2, cs.dropWhile Char.isDigit = '.' :: r2 → False) :
    matchNumBody neg cs = none := by
  unfold matchNumBody
  split
  · rename_i a b rest2 heq1 heq2
    exact absurd (h2 rest2 heq2) not_false
  · rfl
  · rename_i a b rest2 heq hne1 hne2
    exact absurd (h2 rest2 heq) not_false
  · rename_i a b hnil hnodot hboth
    exact absurd (hnil h1) not_false

theorem matchNumBody_int (neg : Bool) (cs ds rest : List Char)
    (hds : cs.takeWhile Char.isDigit = ds) (hne : ds ≠ [])
    (hr : cs.dropWhile Char.isDigit = rest)
    (hdot : ∀ r2, rest = '.' :: r2 → False) :
    matchNumBody neg cs = some (.intLit (mkInt neg ds), rest) := by
  unfold matchNumBody
  split
  · rename_i a b rest2 heq1 heq2
    rw [hds] at heq1
    exact absurd heq1 hne
  · rename_i a b heq hnodot
    rw [hds] at heq
    exact absurd heq hne
  · rename_i a b rest2 heq hne1 hne2
    rw [hr] at heq
    exact absurd (hdot rest2 heq) not_false
  · rename_i a b hnil hnodot hboth
    rw [hds, hr]

theorem matchNumBody_float (neg : Bool) (cs ds rest2 : List Char)
    (hds : cs.takeWhile Char.isDigit = ds) (hne : ds ≠ [])
    (hr : cs.dropWhile Char.isDigit = '.' :: rest2) :
    matchNumBody neg cs
      = some (.floatLit (mkDecimal neg ds (rest2.takeWhile Char.isDigit)),
          rest2.dropWhile Char.isDigit) := by
  unfold matchNumBody
  split
  · rename_i a b rest3 heq1 heq2
    rw [hds] at heq1
    exact absurd heq1 hne
  · rename_i a b heq hnodot
    rw [hds] at heq
    exact absurd heq hne
  · rename_i a b rest3 heq hne1 hne2
    rw [hr] at heq
    rw [List.cons.injEq] at heq
    dsimp only
    rw [hds, heq.2]
  · rename_i a b hnil hnodot hboth
    exact absurd (hnodot rest2 hr) not_false

/-!  ### Word-boundary reasoning for the `true`/`false` rule  -/

/-- Splitting a `take` across an append. -/
theorem take_append_split (w a b : List Char)
    (h : (a ++ b).take w.length = w) :
    (w.length ≤ a.length ∧ a.take w.length = w)
    ∨ (a.length < w.length ∧ b.take (w.length - a.length) = w.drop a.length) := by
  rw [List.take_append_eq_append_take] at h
  by_cases hle : w.length ≤ a.length
  · left
    refine ⟨hle, ?_⟩
    rw [Nat.sub_eq_zero_of_le hle, List.take_zero, List.append_nil] at h
    exact h
  · right
    push_neg at hle
    refine ⟨hle, ?_⟩
    rw [List.take_of_length_le (le_of_lt hle)] at h
    have h2 := congrArg (List.drop a.length) h
    rw [List.drop_left] at h2
    exact h2

/-- A run of identifier characters followed by a safe tail never matches
a reserved word `w` of identifier characters other than the run itself:
either the text does not start with `w`, or `w` is followed by a further
identifier character. -/
theorem word_not_ident (w : List Char) (hw : ∀ c ∈ w, isIdentChar c = true)
    (n : List Char) (hn : ∀ c ∈ n, isIdentChar c = true) (hne : n ≠ w)
    (rest : List Char) (hr : SafeHead rest)
    (h1 : (n ++ rest).take w.length = w)
    (h2 : ¬ startsIdent ((n ++ rest).drop w.length) = true) : False := by
  rcases take_append_split w n rest h1 with ⟨hle, htake⟩ | ⟨hlt, htb⟩
  · by_cases heq : w.length = n.length
    · apply hne
      rw [← htake, heq, List.take_length]
    · have hlt2 : w.length < n.length := lt_of_le_of_ne hle heq
      apply h2
      rw [List.drop_append_eq_append_drop,
        Nat.sub_eq_zero_of_le (le_of_lt hlt2), List.drop_zero]
      cases hd : n.drop w.length with
      | nil =>
          have := congrArg List.length hd
          rw [List.length_drop] at this
          simp only [List.length_nil] at this
          omega
      | cons d ds =>
          have hdmem : d ∈ n := by
            apply List.mem_of_mem_drop (n := w.length)
            rw [hd]
            exact List.mem_cons_self _ _
          rw [List.cons_append, startsIdent]
          exact hn d hdmem
  · have hwd : w.drop n.length ≠ [] := by
      intro hh
      have := congrArg List.length hh
      rw [List.length_drop] at this
      simp only [List.length_nil] at this
      omega
    cases hrest : rest with
    | nil =>
        rw [hrest, List.take_nil] at htb
        exact hwd htb.symm
    | cons r0 rest2 =>
        cases hwdrop : w.drop n.length with
        | nil => exact hwd hwdrop
        | cons w0 ws =>
            have hr0 : r0 = w0 := by
              rw [hrest, hwdrop] at htb
              cases hk2 : w.length - n.length with
              | zero => omega
              | succ k2 =>
                  rw [hk2, List.take_succ_cons] at htb
                  exact (List.cons.injEq _ _ _ _ ▸ htb).1
            have hw0 : isIdentChar w0 = true := by
              apply hw
              apply List.mem_of_mem_drop (n := n.length)
              rw [hwdrop]
              exact List.mem_cons_self _ _
            rcases hr with hnil | ⟨c, cs2, hceq, hcor⟩
            · rw [hnil] at hrest
              cases hrest
            · rw [hrest] at hceq
              rw [List.cons.injEq] at hceq
              rw [← hceq.1] at hcor
              rw [hr0] at hcor
              rcases hcor with rfl | rfl | rfl <;>
                exact absurd hw0 (by decide)

/-- `matchBool` fails on an identifier-character run (other than the two
boolean words) followed by a safe tail. -/
theorem matchBool_none_ident (n rest : List Char)
    (hn : ∀ c ∈ n, isIdentChar c = true)
    (h1 : n ≠ "true".data) (h2 : n ≠ "false".data) (hr : SafeHead rest) :
    matchBool (n ++ rest) = none := by
  rw [matchBool, if_neg, if_neg]
  · intro hc
    refine word_not_ident "false".data (by decide) n hn h2 rest hr ?_ ?_
    · rw [show ("false".data).length = 5 from rfl]
      exact hc.1
    · rw [show ("false".data).length = 5 from rfl]
      exact hc.2
  · intro hc
    refine word_not_ident "true".data (by decide) n hn h1 rest hr ?_ ?_
    · rw [show ("true".data).length = 4 from rfl]
      exact hc.1
    · rw [show ("true".data).length = 4 from rfl]
      exact hc.2

/-- `matchBool` fails when the head character is neither `t` nor `f`. -/
theorem matchBool_none_head (c : Char) (cs : List Char) (h1 : c ≠ 't')
    (h2 : c ≠ 'f') : matchBool (c :: cs) = none := by
  rw [matchBool, if_neg, if_neg]
  · intro hc
    apply h2
    have h5 : (c :: cs).take 5 = c :: cs.take 4 := List.take_succ_cons
    rw [h5, show ("false".data) = 'f' :: "alse".data from rfl] at hc
    exact ((List.cons.injEq _ _ _ _).mp hc.1).1
  · intro hc
    apply h1
    have h4 : (c :: cs).take 4 = c :: cs.take 3 := List.take_succ_cons
    rw [h4, show ("true".data) = 't' :: "rue".data from rfl] at hc
    exact ((List.cons.injEq _ _ _ _).mp hc.1).1

/-!  ### Decimal rendering and parsing are inverse  -/

theorem digitChar_isDigit (d : Nat) (h : d < 10) :
    (digitChar d).isDigit = true := by
  interval_cases d <;> decide

theorem digitChar_val (d : Nat) (h : d < 10) : (digitChar d).toNat - 48 = d := by
  interval_cases d <;> decide

theorem renderNat_digits (n : Nat) : ∀ c ∈ renderNat n, c.isDigit = true := by
  induction n using renderNat.induct with
  | case1 n h =>
      intro c hc
      rw [renderNat, if_pos h] at hc
      simp only [List.mem_singleton] at hc
      rw [hc]
      exact digitChar_isDigit n h
  | case2 n h ih =>
      intro c hc
      rw [renderNat, if_neg h] at hc
      rw [List.mem_append] at hc
      rcases hc with hc | hc
      · exact ih c hc
      · simp only [List.mem_singleton] at hc
        rw [hc]
        exact digitChar_isDigit _ (Nat.mod_lt _ (by omega))

theorem renderNat_ne_nil (n : Nat) : renderNat n ≠ [] := by
  rw [renderNat]
  by_cases h : n < 10
  · rw [if_pos h]
    exact List.cons_ne_nil _ _
  · rw [if_neg h]
    intro hh
    exact absurd (List.append_eq_nil.mp hh).2 (List.cons_ne_nil _ _)

theorem digits_foldl (b : List Char) :
    ∀ i : Nat, b.foldl (fun n c => 10 * n + (c.toNat - 48)) i
      = i * 10 ^ b.length + digitsToNat b := by
  induction b with
  | nil =>
      intro i
      simp [digitsToNat]
  | cons c cs ih =>
      intro i
      have hd : digitsToNat (c :: cs)
          = (10 * 0 + (c.toNat - 48)) * 10 ^ cs.length + digitsToNat cs := by
        rw [digitsToNat, List.foldl_cons, ih]
      rw [List.foldl_cons, ih, hd]
      simp only [List.length_cons]
      ring

theorem digitsToNat_append (a b : List Char) :
    digitsToNat (a ++ b) = digitsToNat a * 10 ^ b.length + digitsToNat b := by
  rw [digitsToNat, List.foldl_append, digits_foldl]
  rfl

theorem digitsToNat_renderNat (n : Nat) : digitsToNat (renderNat n) = n := by
  induction n using renderNat.induct with
  | case1 n h =>
      rw [renderNat, if_pos h]
      rw [digitsToNat]
      simp only [List.foldl_cons, List.foldl_nil]
      have := digitChar_val n h
      omega
  | case2 n h ih =>
      rw [renderNat, if_neg h, digitsToNat_append]
      have h1 : digitsToNat [digitChar (n % 10)] = n % 10 := by
        rw [digitsToNat]
        simp only [List.foldl_cons, List.foldl_nil]
        have := digitChar_val (n % 10) (Nat.mod_lt _ (by omega))
        omega
      rw [ih, h1]
      simp only [List.length_cons, List.length_nil, pow_one]
      omega

theorem digitsToNat_replicate_zero (k : Nat) :
    digitsToNat (List.replicate k '0') = 0 := by
  induction k with
  | zero => rfl
  | succ k ih =>
      rw [List.replicate_succ,
        show ('0' :: List.replicate k '0') = ['0'] ++ List.replicate k '0'
          from rfl,
        digitsToNat_append, ih]
      simp only [Nat.add_zero]
      rw [show digitsToNat ['0'] = 0 from by decide, Nat.zero_mul]

theorem renderNat_length_le (n : Nat) :
    ∀ e, 1 ≤ e → n < 10 ^ e → (renderNat n).length ≤ e := by
  induction n using renderNat.induct with
  | case1 n h =>
      intro e he _
      rw [renderNat, if_pos h]
      simpa using he
  | case2 n h ih =>
      intro e he hlt
      rw [renderNat, if_neg h]
      rw [List.length_append]
      simp only [List.length_cons, List.length_nil]
      have he2 : 2 ≤ e := by
        by_contra hh
        push_neg at hh
        have he1 : e = 1 := by omega
        rw [he1, pow_one] at hlt
        exact absurd hlt h
      have hdiv : n / 10 < 10 ^ (e - 1) := by
        rw [Nat.div_lt_iff_lt_mul (by norm_num)]
        calc n < 10 ^ e := hlt
        _ = 10 ^ (e - 1) * 10 := by
              rw [← pow_succ]
              congr 1
              omega
      have := ih (e - 1) (by omega) hdiv
      omega

/-!  ### Per-token lexing lemmas  -/

theorem contains_false_not_mem {d : List Char} {q : Char}
    (h : d.contains q = false) : q ∉ d := by
  simp_all

/-- A rendered boolean literal lexes back to its boolean token. -/
theorem matchToken_bool (b : Bool) (rest : List Char) (hr : SafeHead rest) :
    matchToken ((if b then "true" else "false" : String).data ++ rest)
      = some (.boolLit b, rest) := by
  rcases hr with rfl | ⟨c, cs2, rfl, hc⟩
  · cases b <;> rfl
  · rcases hc with rfl | rfl | rfl <;> cases b <;> rfl

/-- A rendered string literal lexes back to its string token. -/
theorem matchToken_str (s : String) (rest : List Char)
    (hc : strCleanLit s = true) :
    matchToken ((quoteRender s).data ++ rest) = some (.strLit s, rest) := by
  obtain ⟨d⟩ := s
  rw [strCleanLit, Bool.and_eq_true] at hc
  obtain ⟨hqq, hnl⟩ := hc
  have hnl2 : '\n' ∉ d := by
    intro hm
    rw [List.all_eq_true] at hnl
    have := hnl _ hm
    simp at this
  have hcontains : (d.contains quoteS && d.contains '"') = false := by
    rw [Bool.not_eq_true'] at hqq
    exact hqq
  rw [quoteRender]
  by_cases hq : (String.mk d).data.contains quoteS = true
  · have hq2 : d.contains '"' = false := by
      rcases Bool.and_eq_false_iff.mp hcontains with h | h
      · rw [show d.contains quoteS = true from hq] at h
        cases h
      · exact h
    rw [if_pos hq]
    show matchToken (('"' :: (d ++ ['"'])) ++ rest) = _
    rw [List.cons_append, List.append_assoc]
    exact matchToken_strq '"' (d ++ '"' :: rest) d rest
      rfl
      (matchBool_none_head _ _ (by decide) (by decide))
      (by
        rw [matchNumber_nonsign _ _ (by decide) (by decide)]
        exact matchNumBody_none _ _
          (List.takeWhile_cons_of_neg (by decide))
          (by
            rw [List.dropWhile_cons_of_neg (by decide)]
            intro r2 hcons
            rw [List.cons.injEq] at hcons
            exact absurd hcons.1 (by decide)))
      (Or.inr rfl)
      (scanStr_exact '"' d rest (contains_false_not_mem hq2) hnl2)
  · have hq3 : d.contains quoteS = false := by
      rw [Bool.not_eq_true] at hq
      exact hq
    rw [if_neg hq]
    show matchToken ((quoteS :: (d ++ [quoteS])) ++ rest) = _
    rw [List.cons_append, List.append_assoc]
    exact matchToken_strq quoteS (d ++ quoteS :: rest) d rest
      rfl
      (matchBool_none_head _ _ (by decide) (by decide))
      (by
        rw [matchNumber_nonsign _ _ (by decide) (by decide)]
        exact matchNumBody_none _ _
          (List.takeWhile_cons_of_neg (by decide))
          (by
            rw [List.dropWhile_cons_of_neg (by decide)]
            intro r2 hcons
            rw [List.cons.injEq] at hcons
            exact absurd hcons.1 (by decide)))
      (Or.inl rfl)
      (scanStr_exact quoteS d rest (contains_false_not_mem hq3) hnl2)

theorem not_true_of_false {b : Bool} (h : b = false) : ¬ b = true := by
  rw [h]
  decide

/-- A clean identifier lexes back to its identifier token. -/
theorem matchToken_ident_tok (n : String) (rest : List Char)
    (hn : identCleanName n = true) (hr : SafeHead rest) :
    matchToken (n.data ++ rest) = some (.identTok n, rest) := by
  obtain ⟨d⟩ := n
  cases d with
  | nil => exact absurd hn (by decide)
  | cons c tl =>
      rw [identCleanName] at hn
      simp only [Bool.and_eq_true] at hn
      obtain ⟨⟨⟨hshape, hres⟩, hct⟩, hcf⟩ := hn
      obtain ⟨hstart, halltl⟩ := hshape
      have hall : ∀ x ∈ tl, isIdentChar x = true := by
        rw [List.all_eq_true] at halltl
        intro x hx
        exact halltl x hx
      have hallfull : ∀ x ∈ c :: tl, isIdentChar x = true := by
        intro x hx
        rcases List.mem_cons.mp hx with rfl | hx2
        · exact isIdentStart_isIdentChar _ hstart
        · exact hall x hx2
      show matchToken ((c :: tl) ++ rest) = _
      rw [List.cons_append]
      rw [matchToken_via c (tl ++ rest)
        (matchDelim_none_of c
          (char_ne isIdentStart hstart (by decide))
          (char_ne isIdentStart hstart (by decide))
          (char_ne isIdentStart hstart (by decide))
          (char_ne isIdentStart hstart (by decide))
          (char_ne isIdentStart hstart (by decide))
          (char_ne isIdentStart hstart (by decide)))
        (matchBool_none_ident (c :: tl) rest hallfull
          (by
            intro heq
            have h2 : String.mk (c :: tl) = "true" := by
              rw [heq]
            rw [h2] at hct
            exact absurd hct (by decide))
          (by
            intro heq
            have h2 : String.mk (c :: tl) = "false" := by
              rw [heq]
            rw [h2] at hcf
            exact absurd hcf (by decide))
          hr)
        (by
          rw [matchNumber_nonsign _ _
            (char_ne isIdentStart hstart (by decide))
            (char_ne isIdentStart hstart (by decide))]
          exact matchNumBody_none _ _
            (List.takeWhile_cons_of_neg
              (not_true_of_false (identStart_not_digit c hstart)))
            (by
              rw [List.dropWhile_cons_of_neg
                (not_true_of_false (identStart_not_digit c hstart))]
              intro r2 hcons
              rw [List.cons.injEq] at hcons
              exact absurd hcons.1 (char_ne isIdentStart hstart (by decide))))
        (by
          intro hor
          rcases hor with h | h
          · exact absurd h (char_ne isIdentStart hstart (by decide))
          · exact absurd h (char_ne isIdentStart hstart (by decide)))
        (matchOp_none c _ (matchOp1_none_identStart c hstart)
          (fun b => matchOp2_none_identStart c b hstart))]
      rw [matchIdent, if_pos hstart]
      have htw := takeWhile_append_all isIdentChar tl rest hall
        (safeHead_class isIdentChar (by decide) (by decide) (by decide) rest hr)
      rw [htw.1, htw.2]
      dsimp only
      rw [Option.isNone_iff_eq_none.mp hres]

/-- `matchToken` on input with a digit head reduces to the number rule. -/
theorem matchToken_numhead (c : Char) (cs : List Char) (hc : c.isDigit = true)
    (r : Tok × List Char)
    (hmb : matchNumBody false (c :: cs) = some r) :
    matchToken (c :: cs) = some r := by
  rw [matchToken]
  rw [matchDelim_none_of c
    (char_ne Char.isDigit hc (by decide)) (char_ne Char.isDigit hc (by decide))
    (char_ne Char.isDigit hc (by decide)) (char_ne Char.isDigit hc (by decide))
    (char_ne Char.isDigit hc (by decide)) (char_ne Char.isDigit hc (by decide))]
  dsimp only
  rw [matchBool_none_head c _
    (char_ne Char.isDigit hc (by decide)) (char_ne Char.isDigit hc (by decide))]
  dsimp only
  rw [matchNumber_nonsign c _
    (char_ne Char.isDigit hc (by decide)) (char_ne Char.isDigit hc (by decide)),
    hmb]

/-- `matchToken` on input with a `-` head reduces to the signed number
rule. -/
theorem matchToken_minus (cs : List Char) (r : Tok × List Char)
    (hmb : matchNumBody true cs = some r) :
    matchToken ('-' :: cs) = some r := by
  rw [matchToken, show matchDelim '-' = none from rfl]
  dsimp only
  rw [matchBool_none_head '-' _ (by decide) (by decide)]
  dsimp only
  rw [show matchNumber ('-' :: cs) = matchNumBody true cs from rfl, hmb]

/-- A rendered integer lexes back to its integer token. -/
theorem matchToken_int (n : Int) (rest : List Char) (hr : SafeHead rest) :
    matchToken ((renderInt n).data ++ rest) = some (.intLit n, rest) := by
  have htw := takeWhile_append_all Char.isDigit (renderNat n.natAbs) rest
    (renderNat_digits _)
    (safeHead_class Char.isDigit (by decide) (by decide) (by decide) rest hr)
  have hdot : ∀ r2, rest = '.' :: r2 → False :=
    safeHead_ne_head '.' (by decide) (by decide) (by decide) rest hr
  have hmb : ∀ neg, matchNumBody neg (renderNat n.natAbs ++ rest)
      = some (.intLit (mkInt neg (renderNat n.natAbs)), rest) :=
    fun neg =>
      matchNumBody_int neg _ _ rest htw.1 (renderNat_ne_nil _) htw.2 hdot
  rw [renderInt]
  by_cases hneg : n < 0
  · rw [if_pos hneg]
    show matchToken ('-' :: (renderNat n.natAbs ++ rest)) = _
    rw [matchToken_minus _ _ (hmb true)]
    have hval : mkInt true (renderNat n.natAbs) = n := by
      rw [mkInt, if_pos rfl, digitsToNat_renderNat]
      omega
    rw [hval]
  · rw [if_neg hneg]
    show matchToken (renderNat n.natAbs ++ rest) = _
    have hval : mkInt false (renderNat n.natAbs) = n := by
      rw [mkInt, if_neg (by decide), digitsToNat_renderNat]
      omega
    cases hrn : renderNat n.natAbs with
    | nil => exact absurd hrn (renderNat_ne_nil _)
    | cons d0 ds =>
        rw [hrn] at hmb hval
        have hd0 : d0.isDigit = true := by
          apply renderNat_digits n.natAbs
          rw [hrn]
          exact List.mem_cons_self _ _
        rw [List.cons_append]
        rw [matchToken_numhead d0 (ds ++ rest) hd0 _ (hmb false)]
        rw [hval]

/-!  ### Float rendering pieces  -/

/-- The decimal exponent `formatFloat` works at. -/
def floatE (q : ℚ) : Nat := max (Nat.maxPowDiv 2 q.den) (Nat.maxPowDiv 5 q.den)

/-- The scaled magnitude `|q| * 10 ^ e`. -/
def floatM (q : ℚ) : Nat := q.num.natAbs * (10 ^ floatE q / q.den)

def floatIP (q : ℚ) : Nat := floatM q / 10 ^ floatE q

def floatFP (q : ℚ) : Nat := floatM q % 10 ^ floatE q

def floatFrac (q : ℚ) : List Char :=
  if floatE q = 0 then ['0']
  else List.replicate (floatE q - (renderNat (floatFP q)).length) '0'
    ++ renderNat (floatFP q)

theorem formatFloat_clean (q : ℚ)
    (hc : 2 ^ Nat.maxPowDiv 2 q.den * 5 ^ Nat.maxPowDiv 5 q.den = q.den) :
    formatFloat q = String.mk ((if q.num < 0 then ['-'] else [])
      ++ renderNat (floatIP q) ++ '.' :: floatFrac q) := by
  rw [formatFloat]
  dsimp only
  rw [if_pos hc]
  rfl

theorem floatFrac_digits (q : ℚ) : ∀ c ∈ floatFrac q, c.isDigit = true := by
  rw [floatFrac]
  by_cases he : floatE q = 0
  · rw [if_pos he]
    intro c hcm
    simp only [List.mem_singleton] at hcm
    rw [hcm]
    decide
  · rw [if_neg he]
    intro c hcm
    rw [List.mem_append] at hcm
    rcases hcm with hcm | hcm
    · rw [List.eq_of_mem_replicate hcm]
      decide
    · exact renderNat_digits _ c hcm

theorem floatFP_lt (q : ℚ) : floatFP q < 10 ^ floatE q :=
  Nat.mod_lt _ (pow_pos (by norm_num) _)

theorem floatFrac_val (q : ℚ) : digitsToNat (floatFrac q) = floatFP q := by
  rw [floatFrac]
  by_cases he : floatE q = 0
  · rw [if_pos he]
    have h0 : floatFP q = 0 := by
      have := floatFP_lt q
      rw [he, pow_zero] at this
      omega
    rw [h0]
    decide
  · rw [if_neg he, digitsToNat_append, digitsToNat_replicate_zero,
      digitsToNat_renderNat, Nat.zero_mul, Nat.zero_add]

theorem floatFrac_len (q : ℚ) : (floatFrac q).length = max (floatE q) 1 := by
  rw [floatFrac]
  by_cases he : floatE q = 0
  · rw [if_pos he, he]
    rfl
  · rw [if_neg he, List.length_append, List.length_replicate]
    have hlen : (renderNat (floatFP q)).length ≤ floatE q :=
      renderNat_length_le _ _ (by omega) (floatFP_lt q)
    rw [max_eq_left (by omega : 1 ≤ floatE q)]
    omega

theorem ip_fp_value (m e : Nat) :
    ((m / 10 ^ e : Nat) : ℚ) + ((m % 10 ^ e : Nat) : ℚ) / 10 ^ (max e 1)
      = (m : ℚ) / 10 ^ e := by
  by_cases he : e = 0
  · subst he
    simp [Nat.mod_one]
  · rw [max_eq_left (by omega : 1 ≤ e)]
    have h1 : ((10 : ℚ) ^ e) ≠ 0 := by positivity
    rw [eq_div_iff h1, add_mul, div_mul_cancel₀ _ h1]
    have h2 : ((10 ^ e * (m / 10 ^ e) + m % 10 ^ e : Nat) : ℚ)
        = ((m : Nat) : ℚ) := Nat.cast_inj.mpr (Nat.div_add_mod m (10 ^ e))
    push_cast at h2
    linear_combination h2

theorem float_abs_value (q : ℚ)
    (hc : 2 ^ Nat.maxPowDiv 2 q.den * 5 ^ Nat.maxPowDiv 5 q.den = q.den) :
    ((floatIP q : ℚ)) + ((floatFP q : ℚ)) / 10 ^ (floatFrac q).length
      = (q.num.natAbs : ℚ) / (q.den : ℚ) := by
  rw [floatFrac_len, floatIP, floatFP, ip_fp_value]
  have hdvd : q.den ∣ 10 ^ floatE q := by
    rw [← hc]
    have h2 : (2 : Nat) ^ Nat.maxPowDiv 2 q.den ∣ 2 ^ floatE q :=
      pow_dvd_pow 2 (le_max_left _ _)
    have h5 : (5 : Nat) ^ Nat.maxPowDiv 5 q.den ∣ 5 ^ floatE q :=
      pow_dvd_pow 5 (le_max_right _ _)
    calc 2 ^ Nat.maxPowDiv 2 q.den * 5 ^ Nat.maxPowDiv 5 q.den
        ∣ 2 ^ floatE q * 5 ^ floatE q := mul_dvd_mul h2 h5
    _ = 10 ^ floatE q := by rw [← Nat.mul_pow]
  have hm10 : floatM q * q.den = q.num.natAbs * 10 ^ floatE q := by
    rw [floatM, mul_assoc, Nat.div_mul_cancel hdvd]
  have hden : ((q.den : ℚ)) ≠ 0 := Nat.cast_ne_zero.mpr q.den_nz
  have h10 : ((10 : ℚ) ^ floatE q) ≠ 0 := by positivity
  rw [div_eq_div_iff h10 hden]
  exact_mod_cast hm10

theorem mkDecimal_eval (neg : Bool) (ds fs : List Char) :
    mkDecimal neg ds fs = (if neg then -1 else 1) *
      ((digitsToNat ds : ℚ) + (digitsToNat fs : ℚ) / 10 ^ fs.length) := by
  rw [mkDecimal]
  cases neg <;> simp

theorem mkDecimal_float_pos (q : ℚ)
    (hc : 2 ^ Nat.maxPowDiv 2 q.den * 5 ^ Nat.maxPowDiv 5 q.den = q.den)
    (hnn : 0 ≤ q.num) :
    mkDecimal false (renderNat (floatIP q)) (floatFrac q) = q := by
  rw [mkDecimal_eval, digitsToNat_renderNat, floatFrac_val,
    float_abs_value q hc]
  have habs : ((q.num.natAbs : ℚ)) = (q.num : ℚ) := by
    rw [Int.cast_natAbs, abs_of_nonneg hnn]
  rw [if_neg (by decide), one_mul, habs, Rat.num_div_den]

theorem mkDecimal_float_neg (q : ℚ)
    (hc : 2 ^ Nat.maxPowDiv 2 q.den * 5 ^ Nat.maxPowDiv 5 q.den = q.den)
    (hne : q.num < 0) :
    mkDecimal true (renderNat (floatIP q)) (floatFrac q) = q := by
  rw [mkDecimal_eval, digitsToNat_renderNat, floatFrac_val,
    float_abs_value q hc]
  have habs : ((q.num.natAbs : ℚ)) = -(q.num : ℚ) := by
    rw [Int.cast_natAbs, abs_of_neg hne, Int.cast_neg]
  rw [if_pos rfl, habs, neg_div, neg_one_mul, neg_neg, Rat.num_div_den]

/-- The number rule on a rendered decimal body. -/
theorem matchNumBody_floatrun (neg : Bool) (ipd fracS rest : List Char)
    (hipd : ∀ c ∈ ipd, c.isDigit = true) (hne : ipd ≠ [])
    (hfrac : ∀ c ∈ fracS, c.isDigit = true) (hr : SafeHead rest) :
    matchNumBody neg (ipd ++ '.' :: (fracS ++ rest))
      = some (.floatLit (mkDecimal neg ipd fracS), rest) := by
  have htw1 := takeWhile_append_all Char.isDigit ipd ('.' :: (fracS ++ rest))
    hipd (Or.inr ⟨'.', fracS ++ rest, rfl, by decide⟩)
  have htw2 := takeWhile_append_all Char.isDigit fracS rest hfrac
    (safeHead_class Char.isDigit (by decide) (by decide) (by decide) rest hr)
  rw [matchNumBody_float neg _ ipd (fracS ++ rest) htw1.1 hne htw1.2,
    htw2.1, htw2.2]

/-- A rendered float lexes back to its float token. -/
theorem matchToken_float (q : ℚ) (rest : List Char) (hq : floatClean q = true)
    (hr : SafeHead rest) :
    matchToken ((formatFloat q).data ++ rest) = some (.floatLit q, rest) := by
  have hc : 2 ^ Nat.maxPowDiv 2 q.den * 5 ^ Nat.maxPowDiv 5 q.den = q.den := by
    rw [floatClean] at hq
    exact of_decide_eq_true hq
  rw [formatFloat_clean q hc]
  have hmb : ∀ neg, matchNumBody neg
      (renderNat (floatIP q) ++ '.' :: (floatFrac q ++ rest))
      = some (.floatLit (mkDecimal neg (renderNat (floatIP q)) (floatFrac q)),
          rest) :=
    fun neg => matchNumBody_floatrun neg _ _ rest (renderNat_digits _)
      (renderNat_ne_nil _) (floatFrac_digits q) hr
  by_cases hneg : q.num < 0
  · rw [if_pos hneg]
    show matchToken ((['-'] ++ (renderNat (floatIP q) ++ '.' :: floatFrac q))
      ++ rest) = _
    rw [show (['-'] ++ (renderNat (floatIP q) ++ '.' :: floatFrac q)) ++ rest
        = '-' :: (renderNat (floatIP q) ++ '.' :: (floatFrac q ++ rest))
      from by simp [List.append_assoc]]
    rw [matchToken_minus _ _ (hmb true), mkDecimal_float_neg q hc hneg]
  · rw [if_neg hneg]
    show matchToken (([] ++ (renderNat (floatIP q) ++ '.' :: floatFrac q))
      ++ rest) = _
    rw [show (([] : List Char) ++ (renderNat (floatIP q) ++ '.' :: floatFrac q))
        ++ rest
        = renderNat (floatIP q) ++ '.' :: (floatFrac q ++ rest)
      from by simp [List.append_assoc]]
    have hval := mkDecimal_float_pos q hc (le_of_not_lt hneg)
    cases hrn : renderNat (floatIP q) with
    | nil => exact absurd hrn (renderNat_ne_nil _)
    | cons d0 ds =>
        rw [hrn] at hmb hval
        have hd0 : d0.isDigit = true := by
          apply renderNat_digits (floatIP q)
          rw [hrn]
          exact List.mem_cons_self _ _
        rw [List.cons_append]
        rw [matchToken_numhead d0 (ds ++ '.' :: (floatFrac q ++ rest)) hd0 _
          (hmb false)]
        rw [hval]

/-!  ### Heads of rendered tokens  -/

theorem matchToken_op (o : Op) (ho : ¬ o = .Collect) (rest : List Char)
    (hr : SafeHead rest) :
    matchToken ((opText o).data ++ rest) = some (.op o, rest) := by
  rcases hr with rfl | ⟨c, cs2, rfl, hc⟩
  · cases o <;> first | rfl | exact absurd rfl ho
  · rcases hc with rfl | rfl | rfl <;> cases o <;>
      first | rfl | exact absurd rfl ho

theorem opText_head (o : Op) :
    ∃ c cs2, (opText o).data = c :: cs2 ∧ isWS c = false ∧ (c = '/' → o = .Div) := by
  cases o <;> exact ⟨_, _, rfl, by decide, by decide⟩

theorem identClean_head (n : String) (h : identCleanName n = true) :
    ∃ c cs2, n.data = c :: cs2 ∧ isWS c = false ∧ c ≠ '/' := by
  obtain ⟨d⟩ := n
  cases d with
  | nil => exact absurd h (by decide)
  | cons c tl =>
      rw [identCleanName] at h
      simp only [Bool.and_eq_true] at h
      obtain ⟨⟨⟨⟨hstart, _⟩, _⟩, _⟩, _⟩ := h
      exact ⟨c, tl, rfl,
        isWS_false_of c
          (char_ne isIdentStart hstart (by decide))
          (char_ne isIdentStart hstart (by decide))
          (char_ne isIdentStart hstart (by decide))
          (char_ne isIdentStart hstart (by decide)),
        char_ne isIdentStart hstart (by decide)⟩

theorem digit_not_ws (c : Char) (h : c.isDigit = true) : isWS c = false :=
  isWS_false_of c
    (char_ne Char.isDigit h (by decide)) (char_ne Char.isDigit h (by decide))
    (char_ne Char.isDigit h (by decide)) (char_ne Char.isDigit h (by decide))

theorem renderInt_head (n : Int) :
    ∃ c cs2, (renderInt n).data = c :: cs2 ∧ isWS c = false ∧ c ≠ '/' := by
  rw [renderInt]
  by_cases hneg : n < 0
  · rw [if_pos hneg]
    exact ⟨'-', _, rfl, by decide, by decide⟩
  · rw [if_neg hneg]
    cases hrn : renderNat n.natAbs with
    | nil => exact absurd hrn (renderNat_ne_nil _)
    | cons d0 ds =>
        have hd0 : d0.isDigit = true := by
          apply renderNat_digits n.natAbs
          rw [hrn]
          exact List.mem_cons_self _ _
        exact ⟨d0, ds, rfl, digit_not_ws d0 hd0,
          char_ne Char.isDigit hd0 (by decide)⟩

theorem formatFloat_head (q : ℚ)
    (hc : 2 ^ Nat.maxPowDiv 2 q.den * 5 ^ Nat.maxPowDiv 5 q.den = q.den) :
    ∃ c cs2, (formatFloat q).data = c :: cs2 ∧ isWS c = false ∧ c ≠ '/' := by
  rw [formatFloat_clean q hc]
  by_cases hneg : q.num < 0
  · rw [if_pos hneg]
    exact ⟨'-', _, rfl, by decide, by decide⟩
  · rw [if_neg hneg]
    cases hrn : renderNat (floatIP q) with
    | nil => exact absurd hrn (renderNat_ne_nil _)
    | cons d0 ds =>
        have hd0 : d0.isDigit = true := by
          apply renderNat_digits (floatIP q)
          rw [hrn]
          exact List.mem_cons_self _ _
        exact ⟨d0, ds ++ '.' :: floatFrac q, rfl, digit_not_ws d0 hd0,
          char_ne Char.isDigit hd0 (by decide)⟩

theorem quoteRender_head (s : String) :
    ∃ c cs2, (quoteRender s).data = c :: cs2 ∧ isWS c = false ∧ c ≠ '/' := by
  rw [quoteRender]
  by_cases hq : s.data.contains quoteS = true
  · rw [if_pos hq]
    exact ⟨'"', _, rfl, by decide, by decide⟩
  · rw [if_neg hq]
    exact ⟨quoteS, _, rfl, by decide, by decide⟩

theorem boolText_head (b : Bool) :
    ∃ c cs2, ((if b then "true" else "false" : String)).data = c :: cs2
      ∧ isWS c = false ∧ c ≠ '/' := by
  cases b
  · exact ⟨'f', _, rfl, by decide, by decide⟩
  · exact ⟨'t', _, rfl, by decide, by decide⟩

/-- One lexer step for a rendered token whose head is not whitespace or a
slash. -/
theorem lexChars_simple (body rest : List Char) (t : Tok)
    (hhead : ∃ c cs2, body = c :: cs2 ∧ isWS c = false ∧ c ≠ '/')
    (hm : matchToken (body ++ rest) = some (t, rest)) :
    lexChars (body ++ rest) = Option.map (fun ts => [t] ++ ts) (lexChars rest) := by
  obtain ⟨c, cs2, rfl, hws, hsl⟩ := hhead
  rw [List.cons_append] at hm ⊢
  rw [lexChars_of_matchToken _ _ _
    (dropWS_id c (cs2 ++ rest) hws (fun xs h _ => hsl h))
    (List.cons_ne_nil _ _) hm]
  cases lexChars rest <;> rfl

/-!  ### The lexer undoes the canonical renderer  -/

mutual

/-- Lexing a clean symbol's render (followed by a safe tail) produces its
token sequence, then continues with the tail. -/
theorem lexRender_sym (s : Sym) (hs : cleanSym s = true) (rest : List Char)
    (hr : SafeHead rest) :
    lexChars ((symRender s).data ++ rest)
      = Option.map (fun ts => symToks s ++ ts) (lexChars rest) := by
  cases s with
  | ident n =>
      simp only [cleanSym] at hs
      simp only [symRender, symToks]
      exact lexChars_simple _ _ _ (identClean_head n hs)
        (matchToken_ident_tok n rest hs hr)
  | opSym o =>
      simp only [cleanSym] at hs
      have ho : ¬ o = Op.Collect := by
        intro hh
        rw [hh] at hs
        exact absurd hs (by decide)
      simp only [symRender, symToks]
      obtain ⟨c, cs2, hdata, hws, hdiv⟩ := opText_head o
      have hm := matchToken_op o ho rest hr
      rw [hdata] at hm ⊢
      rw [List.cons_append] at hm ⊢
      rw [lexChars_of_matchToken _ _ _
        (dropWS_id c (cs2 ++ rest) hws (by
          intro xs hcdiv happ
          have ho2 := hdiv hcdiv
          rw [ho2] at hdata
          have hcs2 : cs2 = [] := ((List.cons.injEq _ _ _ _).mp hdata).2.symm
          rw [hcs2, List.nil_append] at happ
          exact safeHead_ne_head '/' (by decide) (by decide) (by decide)
            rest hr xs happ))
        (List.cons_ne_nil _ _) hm]
      cases lexChars rest <;> rfl
  | litBool b =>
      simp only [symRender, symToks]
      exact lexChars_simple _ _ _ (boolText_head b) (matchToken_bool b rest hr)
  | litInt n =>
      simp only [symRender, symToks]
      exact lexChars_simple _ _ _ (renderInt_head n) (matchToken_int n rest hr)
  | litFloat q =>
      simp only [cleanSym] at hs
      simp only [symRender, symToks]
      have hc : 2 ^ Nat.maxPowDiv 2 q.den * 5 ^ Nat.maxPowDiv 5 q.den
          = q.den := by
        rw [floatClean] at hs
        exact of_decide_eq_true hs
      exact lexChars_simple _ _ _ (formatFloat_head q hc)
        (matchToken_float q rest hs hr)
  | litStr s =>
      simp only [cleanSym] at hs
      simp only [symRender, symToks]
      exact lexChars_simple _ _ _ (quoteRender_head s)
        (matchToken_str s rest hs)
  | litArray l =>
      simp only [cleanSym] at hs
      simp only [symRender, symToks]
      rw [show ("[" ++ joinRender l ++ "]").data ++ rest
          = '[' :: ((joinRender l).data ++ (']' :: rest)) from by
        simp [String.data_append, List.append_assoc]]
      rw [lexChars_of_matchToken _ (.delim .openBrack) _
        (dropWS_id '[' _ (by decide) (fun xs h _ => absurd h (by decide)))
        (List.cons_ne_nil _ _) rfl]
      rw [lexRender_join l hs (']' :: rest)
        (Or.inr ⟨']', rest, rfl, Or.inr (Or.inl rfl)⟩)]
      rw [lexChars_of_matchToken (']' :: rest) (.delim .closeBrack) rest
        (dropWS_id ']' rest (by decide) (fun xs h _ => absurd h (by decide)))
        (List.cons_ne_nil _ _) rfl]
      cases lexChars rest <;> simp [List.append_assoc]
  | litTuple l =>
      simp only [cleanSym] at hs
      simp only [symRender, symToks]
      rw [show ("(" ++ joinRender l ++ ")").data ++ rest
          = '(' :: ((joinRender l).data ++ (')' :: rest)) from by
        simp [String.data_append, List.append_assoc]]
      rw [lexChars_of_matchToken _ (.delim .openParen) _
        (dropWS_id '(' _ (by decide) (fun xs h _ => absurd h (by decide)))
        (List.cons_ne_nil _ _) rfl]
      rw [lexRender_join l hs (')' :: rest)
        (Or.inr ⟨')', rest, rfl, Or.inr (Or.inr rfl)⟩)]
      rw [lexChars_of_matchToken (')' :: rest) (.delim .closeParen) rest
        (dropWS_id ')' rest (by decide) (fun xs h _ => absurd h (by decide)))
        (List.cons_ne_nil _ _) rfl]
      cases lexChars rest <;> simp [List.append_assoc]
  | litBlock l =>
      simp only [cleanSym] at hs
      simp only [symRender, symToks]
      rw [show ("\x7b " ++ joinRender l ++ " \x7d").data ++ rest
          = '\x7b' :: ' ' :: ((joinRender l).data ++ (' ' :: '\x7d' :: rest))
        from by simp [String.data_append, List.append_assoc]]
      rw [lexChars_of_matchToken _ (.delim .openBrace) _
        (dropWS_id '\x7b' _ (by decide) (fun xs h _ => absurd h (by decide)))
        (List.cons_ne_nil _ _) rfl]
      rw [lexChars_ws ' ' _ (by decide)]
      rw [lexRender_join l hs (' ' :: '\x7d' :: rest)
        (Or.inr ⟨' ', _, rfl, Or.inl rfl⟩)]
      rw [lexChars_ws ' ' _ (by decide)]
      rw [lexChars_of_matchToken ('\x7d' :: rest) (.delim .closeBrace) rest
        (dropWS_id '\x7d' rest (by decide) (fun xs h _ => absurd h (by decide)))
        (List.cons_ne_nil _ _) rfl]
      cases lexChars rest <;> simp [List.append_assoc]

/-- Lexing a clean symbol list's space-join (followed by a safe tail). -/
theorem lexRender_join (l : List Sym) (hl : cleanSymList l = true)
    (rest : List Char) (hr : SafeHead rest) :
    lexChars ((joinRender l).data ++ rest)
      = Option.map (fun ts => joinToks l ++ ts) (lexChars rest) := by
  cases l with
  | nil =>
      simp only [joinRender, joinToks]
      rw [show ("" : String).data ++ rest = rest from rfl]
      cases lexChars rest <;> rfl
  | cons s l2 =>
      simp only [cleanSymList, Bool.and_eq_true] at hl
      cases l2 with
      | nil =>
          simp only [joinRender, joinToks]
          rw [lexRender_sym s hl.1 rest hr]
          cases lexChars rest <;> simp
      | cons s2 l3 =>
          simp only [joinRender, joinToks]
          rw [show (symRender s ++ " " ++ joinRender (s2 :: l3)).data ++ rest
              = (symRender s).data
                ++ (' ' :: ((joinRender (s2 :: l3)).data ++ rest)) from by
            simp [String.data_append, List.append_assoc]]
          rw [lexRender_sym s hl.1 (' ' :: ((joinRender (s2 :: l3)).data ++ rest))
            (Or.inr ⟨' ', _, rfl, Or.inl rfl⟩)]
          rw [lexChars_ws ' ' _ (by decide)]
          rw [lexRender_join (s2 :: l3) hl.2 rest hr]
          cases lexChars rest <;> simp [List.append_assoc, joinToks]

end

/-!  ### The parser undoes `symToks`  -/

mutual

theorem parseLoop_sym (s : Sym) (ts : List Tok)
    (stack : List (Delim × List Sym)) (acc : List Sym) :
    parseLoop (symToks s ++ ts) stack acc = parseLoop ts stack (s :: acc) := by
  cases s with
  | ident n => rfl
  | opSym o => rfl
  | litBool b => rfl
  | litInt n => rfl
  | litFloat q => rfl
  | litStr str => rfl
  | litArray l =>
      rw [show symToks (Sym.litArray l) ++ ts
          = Tok.delim Delim.openBrack
            :: (joinToks l ++ (Tok.delim Delim.closeBrack :: ts)) from by
        simp [symToks]]
      rw [show parseLoop
          (Tok.delim Delim.openBrack
            :: (joinToks l ++ (Tok.delim Delim.closeBrack :: ts))) stack acc
          = parseLoop (joinToks l ++ (Tok.delim Delim.closeBrack :: ts))
            ((Delim.openBrack, acc) :: stack) [] from rfl]
      rw [parseLoop_join l (Tok.delim Delim.closeBrack :: ts)
        ((Delim.openBrack, acc) :: stack) []]
      rw [show parseLoop (Tok.delim Delim.closeBrack :: ts)
          ((Delim.openBrack, acc) :: stack) (l.reverse ++ [])
          = parseLoop ts stack
            (Sym.litArray (l.reverse ++ []).reverse :: acc) from by rfl]
      simp
  | litTuple l =>
      rw [show symToks (Sym.litTuple l) ++ ts
          = Tok.delim Delim.openParen
            :: (joinToks l ++ (Tok.delim Delim.closeParen :: ts)) from by
        simp [symToks]]
      rw [show parseLoop
          (Tok.delim Delim.openParen
            :: (joinToks l ++ (Tok.delim Delim.closeParen :: ts))) stack acc
          = parseLoop (joinToks l ++ (Tok.delim Delim.closeParen :: ts))
            ((Delim.openParen, acc) :: stack) [] from rfl]
      rw [parseLoop_join l (Tok.delim Delim.closeParen :: ts)
        ((Delim.openParen, acc) :: stack) []]
      rw [show parseLoop (Tok.delim Delim.closeParen :: ts)
          ((Delim.openParen, acc) :: stack) (l.reverse ++ [])
          = parseLoop ts stack
            (Sym.litTuple (l.reverse ++ []).reverse :: acc) from by rfl]
      simp
  | litBlock l =>
      rw [show symToks (Sym.litBlock l) ++ ts
          = Tok.delim Delim.openBrace
            :: (joinToks l ++ (Tok.delim Delim.closeBrace :: ts)) from by
        simp [symToks]]
      rw [show parseLoop
          (Tok.delim Delim.openBrace
            :: (joinToks l ++ (Tok.delim Delim.closeBrace :: ts))) stack acc
          = parseLoop (joinToks l ++ (Tok.delim Delim.closeBrace :: ts))
            ((Delim.openBrace, acc) :: stack) [] from rfl]
      rw [parseLoop_join l (Tok.delim Delim.closeBrace :: ts)
        ((Delim.openBrace, acc) :: stack) []]
      rw [show parseLoop (Tok.delim Delim.closeBrace :: ts)
          ((Delim.openBrace, acc) :: stack) (l.reverse ++ [])
          = parseLoop ts stack
            (Sym.litBlock (l.reverse ++ []).reverse :: acc) from by rfl]
      simp

theorem parseLoop_join (l : List Sym) (ts : List Tok)
    (stack : List (Delim × List Sym)) (acc : List Sym) :
    parseLoop (joinToks l ++ ts) stack acc
      = parseLoop ts stack (l.reverse ++ acc) := by
  cases l with
  | nil => simp [joinToks]
  | cons s l2 =>
      simp only [joinToks]
      rw [List.append_assoc, parseLoop_sym s (joinToks l2 ++ ts) stack acc,
        parseLoop_join l2 ts stack (s :: acc)]
      simp [List.append_assoc]

end

/-!  ### Evaluation undoes `symOf`  -/

mutual

theorem evalSym_symOf (v : Value) (h : cleanV v = true) :
    evalSym (symOf v) = .ok v := by
  cases v with
  | bool b => rfl
  | int n => rfl
  | float q => rfl
  | str s => rfl
  | block syms => rfl
  | tuple xs =>
      simp only [cleanV] at h
      simp only [symOf, evalSym]
      rw [execList_symOfList xs h []]
      simp
  | array xs =>
      simp only [cleanV] at h
      simp only [symOf, evalSym]
      rw [execList_symOfList xs h []]
      simp
  | nameTarget n =>
      simp only [cleanV] at h
      exact Bool.noConfusion h
  | indexTarget a i =>
      simp only [cleanV] at h
      exact Bool.noConfusion h

theorem execList_symOfList (xs : List Value) (h : cleanVList xs = true)
    (acc : List Value) :
    execList (symOfList xs) acc = .ok (xs.reverse ++ acc) := by
  cases xs with
  | nil => simp [symOfList, execList]
  | cons v rest =>
      simp only [cleanVList, Bool.and_eq_true] at h
      simp only [symOfList, execList]
      rw [evalSym_symOf v h.1]
      dsimp only
      rw [execList_symOfList rest h.2 (v :: acc)]
      simp [List.append_assoc]

end

/-!  ### `format` equals the canonical render on clean values  -/

theorem strCleanSrc_chars (s : String) (h : strCleanSrc s = true) :
    ∀ c ∈ s.data, c ≠ '\\' ∧ 32 ≤ c.toNat ∧ c.toNat ≤ 126 := by
  rw [strCleanSrc, Bool.and_eq_true] at h
  obtain ⟨_, hall⟩ := h
  rw [List.all_eq_true] at hall
  intro c hc
  have h2 := hall c hc
  simp only [Bool.and_eq_true, decide_eq_true_eq, Bool.not_eq_true',
    decide_eq_false_iff_not] at h2
  exact ⟨h2.1.1, h2.1.2, h2.2⟩

theorem strCleanSrc_lit (s : String) (h : strCleanSrc s = true) :
    strCleanLit s = true := by
  have hchars := strCleanSrc_chars s h
  rw [strCleanSrc, Bool.and_eq_true] at h
  rw [strCleanLit, Bool.and_eq_true]
  refine ⟨h.1, ?_⟩
  rw [List.all_eq_true]
  intro c hc
  simp only [Bool.not_eq_true', decide_eq_false_iff_not]
  intro heq
  have := (hchars c hc).2.1
  rw [heq] at this
  exact absurd this (by decide)

theorem escape_id (q : Char) (s : List Char)
    (hchar : ∀ c ∈ s, c ≠ '\\' ∧ 32 ≤ c.toNat ∧ c.toNat ≤ 126)
    (hq : q ∉ s) : s.flatMap (escapeChar q) = s := by
  induction s with
  | nil => rfl
  | cons c cs ih =>
      obtain ⟨h1, h2, h3⟩ := hchar c (List.mem_cons_self _ _)
      have hcq : c ≠ q := fun hh => hq (hh ▸ List.mem_cons_self _ _)
      have hes : escapeChar q c = [c] := by
        rw [escapeChar, if_neg h1, if_neg hcq]
        rw [if_neg (fun hh : c = '\n' => by
          rw [hh] at h2
          exact absurd h2 (by decide))]
        rw [if_neg (fun hh : c = '\r' => by
          rw [hh] at h2
          exact absurd h2 (by decide))]
        rw [if_neg (fun hh : c = '\t' => by
          rw [hh] at h2
          exact absurd h2 (by decide))]
        rw [if_neg (fun hh : c.toNat < 32 ∨ c.toNat = 127 => by omega)]
      rw [List.flatMap_cons, hes,
        ih (fun c2 hc2 => hchar c2 (List.mem_cons_of_mem _ hc2))
          (fun hm => hq (List.mem_cons_of_mem _ hm))]
      rfl

theorem pyRepr_eq_quoteRender (s : String) (h : strCleanSrc s = true) :
    pyRepr s = quoteRender s := by
  have hchar := strCleanSrc_chars s h
  rw [strCleanSrc, Bool.and_eq_true] at h
  obtain ⟨hqq, _⟩ := h
  have hcontains : (s.data.contains quoteS && s.data.contains '"') = false := by
    rw [Bool.not_eq_true'] at hqq
    exact hqq
  rw [pyRepr, quoteRender]
  cases hq : s.data.contains quoteS with
  | false =>
      rw [if_neg (fun hh => absurd hh.1 (by decide))]
      rw [if_neg (by decide : ¬ false = true)]
      rw [escape_id quoteS s.data hchar (contains_false_not_mem hq)]
  | true =>
      have hq2 : s.data.contains '"' = false := by
        rcases Bool.and_eq_false_iff.mp hcontains with h2 | h2
        · rw [hq] at h2
          cases h2
        · exact h2
      rw [if_pos ⟨rfl, show ¬ s.data.contains '"' = true by rw [hq2]; decide⟩]
      rw [if_pos (by decide : true = true)]
      rw [escape_id '"' s.data hchar (contains_false_not_mem hq2)]

mutual

theorem formatV_render (v : Value) (h : cleanV v = true) :
    formatV v = symRender (symOf v) := by
  cases v with
  | bool b => rfl
  | int n => rfl
  | float q => rfl
  | block syms => rfl
  | str s =>
      simp only [cleanV] at h
      simp only [formatV, symOf, symRender]
      exact pyRepr_eq_quoteRender s h
  | tuple xs =>
      simp only [cleanV] at h
      simp only [formatV, symOf, symRender]
      rw [joinFormat_render xs h]
  | array xs =>
      simp only [cleanV] at h
      simp only [formatV, symOf, symRender]
      rw [joinFormat_render xs h]
  | nameTarget n =>
      simp only [cleanV] at h
      exact Bool.noConfusion h
  | indexTarget a i =>
      simp only [cleanV] at h
      exact Bool.noConfusion h

theorem joinFormat_render (xs : List Value) (h : cleanVList xs = true) :
    joinFormat xs = joinRender (symOfList xs) := by
  cases xs with
  | nil => rfl
  | cons v rest =>
      simp only [cleanVList, Bool.and_eq_true] at h
      cases rest with
      | nil =>
          simp only [joinFormat, symOfList, joinRender]
          exact formatV_render v h.1
      | cons v2 r3 =>
          simp only [joinFormat, symOfList, joinRender]
          rw [formatV_render v h.1, joinFormat_render (v2 :: r3) h.2]
          simp only [symOfList]

end

/-!  ### Clean values give clean symbols  -/

mutual

theorem cleanSym_symOf (v : Value) (h : cleanV v = true) :
    cleanSym (symOf v) = true := by
  cases v with
  | bool b => rfl
  | int n => rfl
  | float q =>
      simp only [cleanV] at h
      simp only [symOf, cleanSym]
      exact h
  | str s =>
      simp only [cleanV] at h
      simp only [symOf, cleanSym]
      exact strCleanSrc_lit s h
  | tuple xs =>
      simp only [cleanV] at h
      simp only [symOf, cleanSym]
      exact cleanSymList_symOfList xs h
  | array xs =>
      simp only [cleanV] at h
      simp only [symOf, cleanSym]
      exact cleanSymList_symOfList xs h
  | block syms =>
      simp only [cleanV] at h
      simp only [symOf, cleanSym]
      exact h
  | nameTarget n =>
      simp only [cleanV] at h
      exact Bool.noConfusion h
  | indexTarget a i =>
      simp only [cleanV] at h
      exact Bool.noConfusion h

theorem cleanSymList_symOfList (xs : List Value) (h : cleanVList xs = true) :
    cleanSymList (symOfList xs) = true := by
  cases xs with
  | nil => rfl
  | cons v rest =>
      simp only [cleanVList, Bool.and_eq_true] at h
      simp only [symOfList, cleanSymList, Bool.and_eq_true]
      exact ⟨cleanSym_symOf v h.1, cleanSymList_symOfList rest h.2⟩

end

theorem lexChars_nil : lexChars [] = some [] := by
  rw [lexChars_step]
  rw [show dropWS [] = [] from by rw [dropWS]]

/-- Claim C9 (amended): the `format`-then-parse round trip holds for the
clean values: strings of printable ASCII without backslashes and not
containing both quote characters, floats that are exact finite decimals,
booleans, integers, arrays/tuples of clean values, and blocks of clean
symbols; name/index pseudo-values are excluded.  For such `v`,
running `format(v)` as a script leaves exactly `v` on the stack. -/
theorem claim_C9_amended (v : Value) (h : cleanV v = true) :
    runScript (formatV v) = .ok [v] := by
  have hlex : lexChars (formatV v).data = some (symToks (symOf v)) := by
    rw [formatV_render v h]
    have h2 := lexRender_sym (symOf v) (cleanSym_symOf v h) [] (Or.inl rfl)
    rw [List.append_nil] at h2
    rw [h2, lexChars_nil]
    simp
  have hexec : execList [symOf v] [] = Except.ok [v] := by
    simp only [execList]
    rw [evalSym_symOf v h]
  rw [runScript, parseText, hlex]
  dsimp only
  have hparse := parseLoop_sym (symOf v) [] [] []
  rw [List.append_nil] at hparse
  rw [hparse, show parseLoop [] ([] : List (Delim × List Sym)) [symOf v]
    = Except.ok [symOf v] from rfl]
  dsimp only
  rw [hexec]

/-- Witness: the round trip at the concrete clean value `true`. -/
theorem claim_C9_amended_witness :
    cleanV (Value.bool true) = true
      ∧ runScript (formatV (Value.bool true)) = .ok [Value.bool true] :=
  ⟨by simp [cleanV], claim_C9_amended (Value.bool true) (by simp [cleanV])⟩

end StackScript
